import Mathlib

/-!
Verification of the logstack log-ingestion gateway against its
natural-language specification.

This file shallowly embeds the relevant parts of the Python sources
(`src/logstack/core/auth.py`, `core/masking.py`, `core/wal.py`,
`core/forwarder.py`, `models/log_entry.py`, `config.py`) as executable
Lean definitions and proves (or refutes) the specification claims about
them.

Modelling conventions:
  * Python strings are modelled as `List Nat` of Unicode code points
    (except in the masking engine, where Lean `String` is convenient).
  * Byte strings are `List Nat` with elements below 256.
  * Wall-clock timestamps (`time.time()` floats) are modelled as `ℚ`.
  * Machine integers do not occur (Python ints are unbounded); struct
    packing to `u32` is modelled with explicit `% 2^32` checks.
  * Fallible code (`raise`) is modelled with `Except`/`Option`.
-/

set_option maxRecDepth 10000

/-! ## Token bucket (src/logstack/core/auth.py, class TokenBucket) -/

/-- State of `TokenBucket` (`capacity`, `refill_rate`, `tokens`,
`last_refill`).  `capacity`, `refill_rate` and `tokens` are Python ints;
`last_refill` is a wall-clock float, modelled as `ℚ`. -/
structure TokenBucket where
  capacity : Int
  refill_rate : Int
  tokens : Int
  last_refill : ℚ
deriving DecidableEq, Repr

/-- `TokenBucket.__init__(capacity, refill_rate)`: starts full, with
`last_refill` set to the current time. -/
def TokenBucket.init (capacity refill_rate : Int) (now : ℚ) : TokenBucket :=
  { capacity := capacity, refill_rate := refill_rate,
    tokens := capacity, last_refill := now }

/-- Python `int()` applied to a rational: truncation toward zero. -/
def pyTruncInt (q : ℚ) : Int :=
  if 0 ≤ q then ⌊q⌋ else ⌈q⌉

/-- `TokenBucket.consume(tokens)` from auth.py lines 33-53: refill by
`int(elapsed * refill_rate)` capped at `capacity`, set `last_refill`,
then consume if enough tokens are available.  Returns the boolean result
together with the updated bucket state. -/
def TokenBucket.consume (b : TokenBucket) (now : ℚ) (n : Int) :
    Bool × TokenBucket :=
  let time_passed : ℚ := now - b.last_refill
  let tokens_to_add : Int := pyTruncInt (time_passed * (b.refill_rate : ℚ))
  let refilled : Int := min b.capacity (b.tokens + tokens_to_add)
  if n ≤ refilled then
    (true, { b with tokens := refilled - n, last_refill := now })
  else
    (false, { b with tokens := refilled, last_refill := now })

/-! ## Masking engine (src/logstack/core/masking.py) -/

/-- A partial-masking rule configuration dictionary.  The Python code
looks up the keys `mask_email`, `keep_prefix` and `keep_suffix`; absence
of a key is `none`.  (The field names avoid the exact Python key
spelling for syntactic reasons; the `keepPre`/`keepSuf` fields model
`keep_prefix`/`keep_suffix`.) -/
structure PartialRule where
  maskEmailFlag : Option Bool := none
  keepPre : Option Nat := none
  keepSuf : Option Nat := none
deriving DecidableEq, Repr

/-- Split a list at the first occurrence of `c` (Python
`value.split(c, 1)` when `c` occurs): returns the part before and after
the first `c`. -/
def splitFirstAt (c : Char) : List Char → Option (List Char × List Char)
  | [] => none
  | x :: xs =>
    if x = c then some ([], xs)
    else match splitFirstAt c xs with
      | none => none
      | some (l, r) => some (x :: l, r)

/-- `MaskingEngine._mask_email` (masking.py lines 232-262). -/
def maskEmailValue (email : String) : String :=
  if email = "" ∨ ¬ email.toList.contains '@' then "****"
  else
    match splitFirstAt '@' email.toList with
    | none => "****"
    | some (localPart, domain) =>
      if localPart.length ≤ 2 then
        "****" ++ "@" ++ String.mk domain
      else
        let firstChar := String.mk (localPart.take 1)
        let lastChar := String.mk (localPart.drop (localPart.length - 1))
        let middleStars := String.mk (List.replicate (min 5 (localPart.length - 2)) '*')
        firstChar ++ middleStars ++ lastChar ++ "@" ++ String.mk domain

/-- `MaskingEngine._apply_full_masking` (masking.py lines 216-230). -/
def applyFullMasking (value : String) : String :=
  if value = "" then "****"
  else if value.length ≤ 4 then "****"
  else if value.length ≤ 16 then "****"
  else "****[" ++ toString value.length ++ " chars]"

/-- `MaskingEngine._apply_partial_masking` (masking.py lines 184-214).
Note the Python quirk modelled faithfully in the `keep_suffix` branch:
`value[-0:]` is the whole string when the configured length is 0. -/
def applyPartialMasking (value : String) (rule : PartialRule) : String :=
  if value = "" then "****"
  else if rule.maskEmailFlag.getD false then maskEmailValue value
  else match rule.keepPre with
    | some n =>
      if value.length ≤ n then "****"
      else String.mk (value.toList.take n) ++ "****"
    | none => match rule.keepSuf with
      | some n =>
        if value.length ≤ n then "****"
        else if n = 0 then "****" ++ value
        else "****" ++ String.mk (value.toList.drop (value.length - n))
      | none => applyFullMasking value

/-- The masked result that claim C8 asserts for a `keep_prefix: N` rule:
first `N` characters then `****`, except `****` alone when the length is
strictly below `N`. -/
def claimedKeepPrefixMask (value : String) (n : Nat) : String :=
  if value.length < n then "****"
  else String.mk (value.toList.take n) ++ "****"

/-! ## JSON values and Python `json.dumps` / `json.loads`

The WAL writer serializes each entry with `json.dumps(entry)` (default
options: ASCII-only output, separators `", "` and `": "`), and the
forwarder parses payloads with `json.loads`.  JSON-serializable Python
values are modelled by the tagged tree below; numbers are modelled as
integers only (floating-point round-tripping is out of scope), and
strings as lists of Unicode scalar values. -/

mutual
inductive Json where
  | null : Json
  | bool (b : Bool) : Json
  | int (n : Int) : Json
  | str (s : List Nat) : Json
  | arr (elems : JsonElems) : Json
  | obj (members : JsonMembers) : Json
inductive JsonElems where
  | nil : JsonElems
  | cons (hd : Json) (tl : JsonElems) : JsonElems
inductive JsonMembers where
  | nil : JsonMembers
  | cons (key : List Nat) (val : Json) (tl : JsonMembers) : JsonMembers
end

deriving instance DecidableEq for Json
deriving instance Repr for Json

/-- Decimal digits of a natural number, as a list of ASCII code points
(Python `str(n)` for `n ≥ 0`). -/
def natDigits (n : Nat) : List Nat :=
  if h : n < 10 then [48 + n]
  else natDigits (n / 10) ++ [48 + n % 10]
decreasing_by exact Nat.div_lt_self (by omega) (by omega)

/-- Python `str(n)` for an int: optional minus sign then digits. -/
def intRepr (n : Int) : List Nat :=
  if n < 0 then 45 :: natDigits n.natAbs else natDigits n.toNat

/-- Lower-case hex digit for a nibble (`'0'..'9'`, `'a'..'f'`). -/
def toHexChar (d : Nat) : Nat := if d < 10 then 48 + d else 87 + d

/-- Four lower-case hex digits of a value below 2^16 (the `XXXX` in a
JSON `\uXXXX` escape). -/
def hex4 (n : Nat) : List Nat :=
  [toHexChar (n / 4096 % 16), toHexChar (n / 256 % 16),
   toHexChar (n / 16 % 16), toHexChar (n % 16)]

/-- `json.dumps` escaping of a single character with `ensure_ascii=True`
(the default): the two-character escapes of the C encoder's table, `\u`
escapes for other characters outside `0x20..0x7E`, and surrogate pairs
for astral characters. -/
def escapeChar (c : Nat) : List Nat :=
  if c = 34 then [92, 34]
  else if c = 92 then [92, 92]
  else if c = 8 then [92, 98]
  else if c = 12 then [92, 102]
  else if c = 10 then [92, 110]
  else if c = 13 then [92, 114]
  else if c = 9 then [92, 116]
  else if c < 32 then 92 :: 117 :: hex4 c
  else if c < 127 then [c]
  else if c < 65536 then 92 :: 117 :: hex4 c
  else
    (92 :: 117 :: hex4 (55296 + (c - 65536) / 1024)) ++
      (92 :: 117 :: hex4 (56320 + (c - 65536) % 1024))

/-- Escape every character of a string. -/
def escapeString : List Nat → List Nat
  | [] => []
  | c :: cs => escapeChar c ++ escapeString cs

/-- A JSON string literal: `"` + escaped characters + `"`. -/
def encStr (s : List Nat) : List Nat := 34 :: (escapeString s ++ [34])

mutual
/-- `json.dumps` with the default separators `", "` and `": "`. -/
def dumpsJson : Json → List Nat
  | .null => [110, 117, 108, 108]
  | .bool true => [116, 114, 117, 101]
  | .bool false => [102, 97, 108, 115, 101]
  | .int n => intRepr n
  | .str s => encStr s
  | .arr .nil => [91, 93]
  | .arr (.cons v vs) => 91 :: ((dumpsJson v ++ dumpsElemsTail vs) ++ [93])
  | .obj .nil => [123, 125]
  | .obj (.cons k v ms) =>
    123 :: (((encStr k ++ (58 :: 32 :: dumpsJson v)) ++ dumpsMembersTail ms) ++ [125])
/-- Remaining array elements, each preceded by `", "`. -/
def dumpsElemsTail : JsonElems → List Nat
  | .nil => []
  | .cons v vs => 44 :: 32 :: (dumpsJson v ++ dumpsElemsTail vs)
/-- Remaining object members, each preceded by `", "`. -/
def dumpsMembersTail : JsonMembers → List Nat
  | .nil => []
  | .cons k v ms => 44 :: 32 :: ((encStr k ++ (58 :: 32 :: dumpsJson v)) ++ dumpsMembersTail ms)
end

mutual
/-- JSON serialization with the compact separators `","` and `":"`
(what pydantic's `model_dump_json()` emits). -/
def dumpsCompactJson : Json → List Nat
  | .null => [110, 117, 108, 108]
  | .bool true => [116, 114, 117, 101]
  | .bool false => [102, 97, 108, 115, 101]
  | .int n => intRepr n
  | .str s => encStr s
  | .arr .nil => [91, 93]
  | .arr (.cons v vs) => 91 :: ((dumpsCompactJson v ++ dumpsCompactElemsTail vs) ++ [93])
  | .obj .nil => [123, 125]
  | .obj (.cons k v ms) =>
    123 :: (((encStr k ++ (58 :: dumpsCompactJson v)) ++ dumpsCompactMembersTail ms) ++ [125])
/-- Remaining array elements in compact form. -/
def dumpsCompactElemsTail : JsonElems → List Nat
  | .nil => []
  | .cons v vs => 44 :: (dumpsCompactJson v ++ dumpsCompactElemsTail vs)
/-- Remaining object members in compact form. -/
def dumpsCompactMembersTail : JsonMembers → List Nat
  | .nil => []
  | .cons k v ms => 44 :: ((encStr k ++ (58 :: dumpsCompactJson v)) ++ dumpsCompactMembersTail ms)
end

/-- JSON whitespace characters skipped by the decoder. -/
def isWsChar (c : Nat) : Bool := c = 32 || c = 9 || c = 10 || c = 13

/-- Skip leading JSON whitespace. -/
def skipWs : List Nat → List Nat
  | [] => []
  | c :: cs => if isWsChar c then skipWs cs else c :: cs

/-- Value of a hex digit character (both cases accepted, as in
`int(s, 16)`). -/
def hexVal (c : Nat) : Option Nat :=
  if 48 ≤ c ∧ c ≤ 57 then some (c - 48)
  else if 97 ≤ c ∧ c ≤ 102 then some (c - 87)
  else if 65 ≤ c ∧ c ≤ 70 then some (c - 55)
  else none

/-- Value of a four-hex-digit escape. -/
def hex4Val (a b c d : Nat) : Option Nat :=
  match hexVal a, hexVal b, hexVal c, hexVal d with
  | some x, some y, some z, some w => some (((x * 16 + y) * 16 + z) * 16 + w)
  | _, _, _, _ => none

/-- Body of a JSON string literal after the opening quote, as scanned by
`json.loads` (strict mode: raw control characters are rejected; a
`\uXXXX` high surrogate followed by a `\uXXXX` low surrogate is combined
into one astral character, while a lone surrogate escape is kept
as-is). -/
def parseStrBodyF : Nat → List Nat → Option (List Nat × List Nat)
  | 0, _ => none
  | _ + 1, [] => none
  | fuel + 1, c :: cs =>
    if c = 34 then some ([], cs)
    else if c = 92 then
      match cs with
      | [] => none
      | e :: r =>
        if e = 34 then (parseStrBodyF fuel r).map (fun p => (34 :: p.1, p.2))
        else if e = 92 then (parseStrBodyF fuel r).map (fun p => (92 :: p.1, p.2))
        else if e = 47 then (parseStrBodyF fuel r).map (fun p => (47 :: p.1, p.2))
        else if e = 98 then (parseStrBodyF fuel r).map (fun p => (8 :: p.1, p.2))
        else if e = 102 then (parseStrBodyF fuel r).map (fun p => (12 :: p.1, p.2))
        else if e = 110 then (parseStrBodyF fuel r).map (fun p => (10 :: p.1, p.2))
        else if e = 114 then (parseStrBodyF fuel r).map (fun p => (13 :: p.1, p.2))
        else if e = 116 then (parseStrBodyF fuel r).map (fun p => (9 :: p.1, p.2))
        else if e = 117 then
          match r with
          | a :: b :: d1 :: d2 :: r2 =>
            (match hex4Val a b d1 d2 with
             | none => none
             | some u =>
               if 55296 ≤ u ∧ u < 56320 then
                 match r2 with
                 | 92 :: 117 :: a2 :: b2 :: c2 :: e2 :: r3 =>
                   (match hex4Val a2 b2 c2 e2 with
                    | some u2 =>
                      if 56320 ≤ u2 ∧ u2 < 57344 then
                        (parseStrBodyF fuel r3).map
                          (fun p => ((65536 + (u - 55296) * 1024 + (u2 - 56320)) :: p.1, p.2))
                      else (parseStrBodyF fuel r2).map (fun p => (u :: p.1, p.2))
                    | none => (parseStrBodyF fuel r2).map (fun p => (u :: p.1, p.2)))
                 | _ => (parseStrBodyF fuel r2).map (fun p => (u :: p.1, p.2))
               else (parseStrBodyF fuel r2).map (fun p => (u :: p.1, p.2)))
          | _ => none
        else none
    else if c < 32 then none
    else (parseStrBodyF fuel cs).map (fun p => (c :: p.1, p.2))

/-- Body of a JSON string literal after the opening quote.  Every step
of `parseStrBodyF` consumes at least one input character together with
one unit of fuel, so `length + 1` fuel is never exhausted before the
input is: the wrapper has exactly the unbounded-recursion semantics. -/
def parseStrBody (s : List Nat) : Option (List Nat × List Nat) :=
  parseStrBodyF (s.length + 1) s

/-- Greedy scan of decimal digits, accumulating their value. -/
def parseDigitsAux (acc : Nat) : List Nat → Nat × List Nat
  | [] => (acc, [])
  | c :: cs =>
    if 48 ≤ c ∧ c ≤ 57 then parseDigitsAux (acc * 10 + (c - 48)) cs else (acc, c :: cs)

/-- Integer part of the JSON number grammar (`0|[1-9][0-9]*`): no
leading zeros. -/
def parsePyNat : List Nat → Option (Nat × List Nat)
  | [] => none
  | c :: r =>
    if c = 48 then some (0, r)
    else if 49 ≤ c ∧ c ≤ 57 then some (parseDigitsAux (c - 48) r)
    else none

mutual
/-- `json.loads` value scanner (fueled; the fuel only has to dominate
the nesting structure).  Numbers are modelled by their integer part:
fractional/exponent suffixes of Python floats are not modelled. -/
def parseValue : Nat → List Nat → Option (Json × List Nat)
  | 0, _ => none
  | fuel + 1, s =>
    match skipWs s with
    | [] => none
    | c :: cs =>
      if c = 110 then
        match cs with
        | 117 :: 108 :: 108 :: r => some (.null, r)
        | _ => none
      else if c = 116 then
        match cs with
        | 114 :: 117 :: 101 :: r => some (.bool true, r)
        | _ => none
      else if c = 102 then
        match cs with
        | 97 :: 108 :: 115 :: 101 :: r => some (.bool false, r)
        | _ => none
      else if c = 34 then (parseStrBody cs).map (fun p => (.str p.1, p.2))
      else if c = 91 then
        match skipWs cs with
        | [] => none
        | c2 :: r2 =>
          if c2 = 93 then some (.arr .nil, r2)
          else (parseElems fuel cs).map (fun p => (.arr p.1, p.2))
      else if c = 123 then
        match skipWs cs with
        | [] => none
        | c2 :: r2 =>
          if c2 = 125 then some (.obj .nil, r2)
          else (parseMembers fuel cs).map (fun p => (.obj p.1, p.2))
      else if c = 45 then (parsePyNat cs).map (fun p => (.int (-(p.1 : Int)), p.2))
      else (parsePyNat (c :: cs)).map (fun p => (.int (p.1 : Int), p.2))
/-- One or more array elements, ending at `]`. -/
def parseElems : Nat → List Nat → Option (JsonElems × List Nat)
  | 0, _ => none
  | fuel + 1, s =>
    match parseValue fuel s with
    | none => none
    | some (v, r) =>
      match skipWs r with
      | [] => none
      | c :: r2 =>
        if c = 44 then (parseElems fuel r2).map (fun p => (.cons v p.1, p.2))
        else if c = 93 then some (.cons v .nil, r2)
        else none
/-- One or more object members, ending at the closing brace. -/
def parseMembers : Nat → List Nat → Option (JsonMembers × List Nat)
  | 0, _ => none
  | fuel + 1, s =>
    match skipWs s with
    | [] => none
    | c :: cs =>
      if c = 34 then
        match parseStrBody cs with
        | none => none
        | some (k, r2) =>
          match skipWs r2 with
          | [] => none
          | c2 :: r3 =>
            if c2 = 58 then
              match parseValue fuel r3 with
              | none => none
              | some (v, r4) =>
                match skipWs r4 with
                | [] => none
                | c3 :: r5 =>
                  if c3 = 44 then (parseMembers fuel r5).map (fun p => (.cons k v p.1, p.2))
                  else if c3 = 125 then some (.cons k v .nil, r5)
                  else none
            else none
      else none
end

/-- `json.loads`: parse one value, then require only whitespace to
remain (`Extra data` otherwise). -/
def pyJsonLoads (s : List Nat) : Option Json :=
  match parseValue (s.length + 1) s with
  | none => none
  | some (v, rest) => if skipWs rest = [] then some v else none

/-- Does the list start with a decimal digit?  (Relevant because the
number scanner is greedy.) -/
def headIsDigit : List Nat → Bool
  | [] => false
  | c :: _ => decide (48 ≤ c ∧ c ≤ 57)

/-- A code point Python can hold in a string that round-trips through
`json.dumps`/`json.loads`: a Unicode scalar value (surrogate code
points do not round-trip and cannot appear in data that itself came
through JSON/UTF-8 decoding). -/
def validScalar (c : Nat) : Bool := decide (c < 1114112 ∧ ¬ (55296 ≤ c ∧ c < 57344))

mutual
/-- All strings (values and keys) of a JSON tree consist of Unicode
scalar values. -/
def wfJson : Json → Bool
  | .null => true
  | .bool _ => true
  | .int _ => true
  | .str s => s.all validScalar
  | .arr es => wfElems es
  | .obj ms => wfMembers ms
/-- `wfJson` over array elements. -/
def wfElems : JsonElems → Bool
  | .nil => true
  | .cons v tl => wfJson v && wfElems tl
/-- `wfJson` over object members. -/
def wfMembers : JsonMembers → Bool
  | .nil => true
  | .cons k v tl => k.all validScalar && wfJson v && wfMembers tl
end

mutual
/-- Fuel bound for `parseValue` on the output of `dumpsJson`. -/
def sizeJson : Json → Nat
  | .null => 1
  | .bool _ => 1
  | .int _ => 1
  | .str _ => 1
  | .arr .nil => 1
  | .arr (.cons v vs) => 1 + sizeElems (.cons v vs)
  | .obj .nil => 1
  | .obj (.cons k v ms) => 1 + sizeMembers (.cons k v ms)
/-- Fuel bound for `parseElems`. -/
def sizeElems : JsonElems → Nat
  | .nil => 0
  | .cons v vs => 1 + sizeJson v + sizeElems vs
/-- Fuel bound for `parseMembers`. -/
def sizeMembers : JsonMembers → Nat
  | .nil => 0
  | .cons _ v ms => 1 + sizeJson v + sizeMembers ms
end

/-! ## UTF-8 codec (`str.encode('utf-8')` / `bytes.decode('utf-8')`) -/

/-- UTF-8 encoding of one Unicode scalar value. -/
def utf8EncodeChar (c : Nat) : List Nat :=
  if c < 128 then [c]
  else if c < 2048 then [192 + c / 64, 128 + c % 64]
  else if c < 65536 then [224 + c / 4096, 128 + c / 64 % 64, 128 + c % 64]
  else [240 + c / 262144, 128 + c / 4096 % 64, 128 + c / 64 % 64, 128 + c % 64]

/-- `str.encode('utf-8')` over the code points of a string. -/
def utf8Encode : List Nat → List Nat
  | [] => []
  | c :: cs => utf8EncodeChar c ++ utf8Encode cs

/-- Strict UTF-8 decoding (`bytes.decode('utf-8')`): rejects overlong
forms, surrogates and out-of-range sequences, returning `none` where
Python raises `UnicodeDecodeError`.  Fueled; every step consumes at
least one byte. -/
def utf8DecodeF : Nat → List Nat → Option (List Nat)
  | 0, _ => none
  | _ + 1, [] => some []
  | fuel + 1, b :: bs =>
    if b < 128 then (utf8DecodeF fuel bs).map (b :: ·)
    else if 194 ≤ b ∧ b < 224 then
      match bs with
      | b2 :: bs2 =>
        if 128 ≤ b2 ∧ b2 < 192 then
          (utf8DecodeF fuel bs2).map (((b - 192) * 64 + (b2 - 128)) :: ·)
        else none
      | [] => none
    else if 224 ≤ b ∧ b < 240 then
      match bs with
      | b2 :: b3 :: bs2 =>
        if 128 ≤ b2 ∧ b2 < 192 ∧ 128 ≤ b3 ∧ b3 < 192 then
          if 2048 ≤ (b - 224) * 4096 + (b2 - 128) * 64 + (b3 - 128) ∧
              ¬ (55296 ≤ (b - 224) * 4096 + (b2 - 128) * 64 + (b3 - 128) ∧
                 (b - 224) * 4096 + (b2 - 128) * 64 + (b3 - 128) < 57344) then
            (utf8DecodeF fuel bs2).map (((b - 224) * 4096 + (b2 - 128) * 64 + (b3 - 128)) :: ·)
          else none
        else none
      | _ => none
    else if 240 ≤ b ∧ b < 245 then
      match bs with
      | b2 :: b3 :: b4 :: bs2 =>
        if 128 ≤ b2 ∧ b2 < 192 ∧ 128 ≤ b3 ∧ b3 < 192 ∧ 128 ≤ b4 ∧ b4 < 192 then
          if 65536 ≤ (b - 240) * 262144 + (b2 - 128) * 4096 + (b3 - 128) * 64 + (b4 - 128) ∧
              (b - 240) * 262144 + (b2 - 128) * 4096 + (b3 - 128) * 64 + (b4 - 128) < 1114112 then
            (utf8DecodeF fuel bs2).map
              (((b - 240) * 262144 + (b2 - 128) * 4096 + (b3 - 128) * 64 + (b4 - 128)) :: ·)
          else none
        else none
      | _ => none
    else none

/-- `bytes.decode('utf-8')`: each decoded character consumes at least
one byte, so `length + 1` units of fuel always suffice. -/
def utf8Decode (bs : List Nat) : Option (List Nat) :=
  utf8DecodeF (bs.length + 1) bs

/-! ## CRC32 (`zlib.crc32`) and the record frame -/

/-- One bit step of the reflected CRC-32 (polynomial `0xEDB88320`). -/
def crc32Bit (r : Nat) : Nat := if r % 2 = 1 then (r / 2) ^^^ 0xEDB88320 else r / 2

/-- Fold one byte into the CRC register. -/
def crc32Byte (r b : Nat) : Nat :=
  crc32Bit (crc32Bit (crc32Bit (crc32Bit (crc32Bit (crc32Bit (crc32Bit (crc32Bit (r ^^^ b))))))))

/-- `zlib.crc32(data)` with the default initial value. -/
def crc32 (bs : List Nat) : Nat := (bs.foldl crc32Byte 4294967295) ^^^ 4294967295

/-- `struct.pack('<I', n)`: four little-endian bytes.  (The source can
only reach this with `n < 2^32`; larger values raise in Python and are
excluded by hypothesis where it matters.) -/
def u32le (n : Nat) : List Nat := [n % 256, n / 256 % 256, n / 65536 % 256, n / 16777216 % 256]

/-- `struct.unpack('<I', bs)[0]` for a four-byte string. -/
def readU32LE (bs : List Nat) : Nat :=
  match bs with
  | [a, b, c, d] => a + 256 * b + 65536 * c + 16777216 * d
  | _ => 0

/-- `WALManager._write_entry_to_segment` (wal.py lines 151-162): the
bytes appended for one entry — `<u32 length LE><payload><u32 crc32 LE>`. -/
def writeEntryFrame (payload : List Nat) : List Nat :=
  u32le payload.length ++ payload ++ u32le (crc32 payload)

/-- The payload of one entry in `WALManager.append` (wal.py line 178):
`json.dumps(entry).encode('utf-8')`. -/
def entryPayload (e : Json) : List Nat := utf8Encode (dumpsJson e)

/-- The byte sequence appended to the active segment for a list of
entries. -/
def writeEntriesBytes : List Json → List Nat
  | [] => []
  | e :: es => writeEntryFrame (entryPayload e) ++ writeEntriesBytes es

/-- How `LokiForwarder._read_segment_entries` can terminate abnormally. -/
inductive ScanError where
  | structError : ScanError
  | unicodeError : ScanError
deriving DecidableEq, Repr

/-- `LokiForwarder._read_segment_entries` (forwarder.py lines 177-236):
scan a segment's bytes from offset 0.  An empty read of the length
prefix ends the scan; a 1-3 byte length read raises `struct.error`
(modelled as `.error .structError`); short payload or checksum reads end
the scan; a CRC mismatch skips the frame; a payload that fails UTF-8
decoding raises (`.error .unicodeError`); a payload that fails JSON
parsing is skipped.  The `except Exception ... raise` handler re-raises,
so a late error discards all previously scanned entries. -/
def readSegmentEntriesF : Nat → List Nat → Except ScanError (List Json)
  | 0, _ => .ok []
  | fuel + 1, bytes =>
    if bytes = [] then .ok []
    else if bytes.length < 4 then .error .structError
    else
      let len := readU32LE (bytes.take 4)
      let rest := bytes.drop 4
      let data := rest.take len
      if data.length ≠ len then .ok []
      else if rest.length - len < 4 then .ok []
      else
        let rest3 := (rest.drop len).drop 4
        if readU32LE ((rest.drop len).take 4) ≠ crc32 data then readSegmentEntriesF fuel rest3
        else
          match utf8Decode data with
          | none => .error .unicodeError
          | some s =>
            match pyJsonLoads s with
            | none => readSegmentEntriesF fuel rest3
            | some j =>
              match readSegmentEntriesF fuel rest3 with
              | .error e => .error e
              | .ok js => .ok (j :: js)

/-- The scan itself: each processed frame consumes at least 8 bytes, so
`length + 1` units of fuel always reach the end of the input. -/
def readSegmentEntries (bytes : List Nat) : Except ScanError (List Json) :=
  readSegmentEntriesF (bytes.length + 1) bytes

/-! ## WAL segment management (src/logstack/core/wal.py)

A tenant directory is modelled as a list of segment files; a file is
identified by its numeric suffix (`segment_NNN`) and extension (`.wal`
or `.ready`).  `stat` metadata (size, `st_ctime`, `st_mtime`) is carried
on each file.  The two `time.time()` calls in
`_should_rotate_segment` are modelled by a single `now`. -/

/-- The relevant fields of `WALSettings` (config.py lines 88-117), with
their defaults. -/
structure WALSettings where
  segment_max_bytes : Nat := 134217728
  rotation_time_active_minutes : Nat := 5
  rotation_time_idle_hours : Nat := 1
  idle_threshold_minutes : Nat := 10
  min_rotation_bytes : Nat := 65536
  force_rotation_hours : Nat := 6
deriving DecidableEq, Repr

/-- Extension of a segment file name. -/
inductive SegExt where
  | wal : SegExt
  | ready : SegExt
deriving DecidableEq, Repr, BEq

/-- One `segment_NNN.<ext>` file in a tenant directory, with its stat
metadata. -/
structure SegFile where
  num : Nat
  ext : SegExt
  size : Nat
  ctime : ℚ
  mtime : ℚ
deriving DecidableEq, Repr, BEq

/-- `token_dir.glob('segment_*.wal')`. -/
def walFiles (dir : List SegFile) : List SegFile :=
  dir.filter (fun f => f.ext == SegExt.wal)

/-- The last element of the `.wal` files sorted by numeric suffix: the
`.wal` file with the greatest number (ties cannot occur, since a name
determines the number). -/
def maxWalFile (dir : List SegFile) : Option SegFile :=
  (walFiles dir).foldl
    (fun acc f =>
      match acc with
      | none => some f
      | some g => if g.num ≤ f.num then some f else some g)
    none

/-- Look up a file by number and extension. -/
def findFile (dir : List SegFile) (n : Nat) (e : SegExt) : Option SegFile :=
  dir.find? (fun f => f.num == n && f.ext == e)

/-- Exceptions raised by the modelled WAL code paths. -/
inductive WalError where
  | fileNotFound : WalError
deriving DecidableEq, Repr

/-- `WALManager._get_current_segment_path` (wal.py lines 98-110),
returning the numeric suffix of the chosen `.wal` path.  Note the
source computes the successor number as `len(segment_files) + 1`. -/
def getCurrentSegmentNum (s : WALSettings) (dir : List SegFile) : Nat :=
  match maxWalFile dir with
  | none => 1
  | some f =>
    if f.size ≥ s.segment_max_bytes then (walFiles dir).length + 1 else f.num

/-- `WALManager._should_rotate_segment` (wal.py lines 112-139).
`segment_path.stat()` on a path that does not exist raises
`FileNotFoundError`. -/
def shouldRotateSegment (s : WALSettings) (now : ℚ) (dir : List SegFile) (num : Nat) :
    Except WalError Bool :=
  match findFile dir num SegExt.wal with
  | none => .error .fileNotFound
  | some f =>
    let age : ℚ := now - f.ctime
    let sinceWrite : ℚ := now - f.mtime
    let isActive : Prop := sinceWrite < (s.idle_threshold_minutes * 60 : Nat)
    if f.size ≥ s.segment_max_bytes then .ok true
    else if isActive ∧ age ≥ (s.rotation_time_active_minutes * 60 : Nat) ∧
        f.size ≥ s.min_rotation_bytes then .ok true
    else if ¬ isActive ∧ age ≥ (s.rotation_time_idle_hours * 3600 : Nat) then .ok true
    else if age ≥ (s.force_rotation_hours * 3600 : Nat) then .ok true
    else .ok false

/-- `WALManager._rotate_segment` (wal.py lines 141-149): rename the
current `.wal` segment to `.ready` (a POSIX rename silently replaces an
existing `.ready` file of the same name), then `touch` the file numbered
`len(<.wal files before the rename>) + 1`.  Renaming a non-existent
current segment raises `FileNotFoundError`. -/
def rotateSegment (s : WALSettings) (now : ℚ) (dir : List SegFile) :
    Except WalError (List SegFile) :=
  let cur := getCurrentSegmentNum s dir
  let nextNum := (walFiles dir).length + 1
  match findFile dir cur SegExt.wal with
  | none => .error .fileNotFound
  | some _ =>
    let dir1 := dir.filter (fun g => ¬ (g.num = cur ∧ g.ext = SegExt.ready))
    let dir2 := dir1.map (fun g =>
      if g.num = cur ∧ g.ext = SegExt.wal then { g with ext := SegExt.ready } else g)
    let dir3 :=
      if (findFile dir2 nextNum SegExt.wal).isSome then
        dir2.map (fun g =>
          if g.num = nextNum ∧ g.ext = SegExt.wal then { g with mtime := now } else g)
      else dir2 ++ [{ num := nextNum, ext := SegExt.wal, size := 0, ctime := now, mtime := now }]
    .ok dir3

/-- Effect on the directory of the write loop in `WALManager.append`
(wal.py lines 177-185): append each entry's frame to the segment
numbered `cur` (`open(..., 'ab')` creates the file on the first write if
it does not exist; with no entries nothing is opened or created). -/
def writeEntriesToDir (now : ℚ) (dir : List SegFile) (cur : Nat) (entries : List Json) :
    List SegFile :=
  if entries.isEmpty then dir
  else
    let total := (writeEntriesBytes entries).length
    if (findFile dir cur SegExt.wal).isSome then
      dir.map (fun g =>
        if g.num = cur ∧ g.ext = SegExt.wal then
          { g with size := g.size + total, mtime := now }
        else g)
    else dir ++ [{ num := cur, ext := SegExt.wal, size := total, ctime := now, mtime := now }]

/-- `WALManager.append` (wal.py lines 164-186) for one tenant directory:
select the current segment, maybe rotate, then write all entries. -/
def walAppend (s : WALSettings) (now : ℚ) (dir : List SegFile) (entries : List Json) :
    Except WalError (List SegFile) :=
  let cur := getCurrentSegmentNum s dir
  match shouldRotateSegment s now dir cur with
  | .error e => .error e
  | .ok true =>
    match rotateSegment s now dir with
    | .error e => .error e
    | .ok dir2 => .ok (writeEntriesToDir now dir2 (getCurrentSegmentNum s dir2) entries)
  | .ok false => .ok (writeEntriesToDir now dir cur entries)

/-- The sequence numbers of all segment files (`.wal` and `.ready`
together) in a directory. -/
def segNums (dir : List SegFile) : List Nat := dir.map (fun f => f.num)

/-! ## Token sanitization (wal.py `_sanitize_token`) and SHA-256 -/

/-- Characters kept by `re.sub(r'[^a-zA-Z0-9_-]', '', token)`. -/
def isTokenSafeChar (c : Nat) : Bool :=
  decide ((97 ≤ c ∧ c ≤ 122) ∨ (65 ≤ c ∧ c ≤ 90) ∨ (48 ≤ c ∧ c ≤ 57) ∨ c = 95 ∨ c = 45)

/-- 32-bit right rotation. -/
def rotr32 (n x : Nat) : Nat := ((x >>> n) ||| (x <<< (32 - n))) % 4294967296

/-- SHA-256 `Ch`. -/
def shaCh (x y z : Nat) : Nat := (x &&& y) ^^^ ((x ^^^ 4294967295) &&& z)

/-- SHA-256 `Maj`. -/
def shaMaj (x y z : Nat) : Nat := (x &&& y) ^^^ (x &&& z) ^^^ (y &&& z)

/-- SHA-256 `Σ0`. -/
def shaBigSig0 (x : Nat) : Nat := rotr32 2 x ^^^ rotr32 13 x ^^^ rotr32 22 x

/-- SHA-256 `Σ1`. -/
def shaBigSig1 (x : Nat) : Nat := rotr32 6 x ^^^ rotr32 11 x ^^^ rotr32 25 x

/-- SHA-256 `σ0`. -/
def shaSml0 (x : Nat) : Nat := rotr32 7 x ^^^ rotr32 18 x ^^^ (x >>> 3)

/-- SHA-256 `σ1`. -/
def shaSml1 (x : Nat) : Nat := rotr32 17 x ^^^ rotr32 19 x ^^^ (x >>> 10)

/-- The SHA-256 round constants. -/
def shaK : List Nat :=
  [1116352408, 1899447441, 3049323471, 3921009573, 961987163, 1508970993,
   2453635748, 2870763221, 3624381080, 310598401, 607225278, 1426881987,
   1925078388, 2162078206, 2614888103, 3248222580, 3835390401, 4022224774,
   264347078, 604807628, 770255983, 1249150122, 1555081692, 1996064986,
   2554220882, 2821834349, 2952996808, 3210313671, 3336571891, 3584528711,
   113926993, 338241895, 666307205, 773529912, 1294757372, 1396182291,
   1695183700, 1986661051, 2177026350, 2456956037, 2730485921, 2820302411,
   3259730800, 3345764771, 3516065817, 3600352804, 4094571909, 275423344,
   430227734, 506948616, 659060556, 883997877, 958139571, 1322822218,
   1537002063, 1747873779, 1955562222, 2024104815, 2227730452, 2361852424,
   2428436474, 2756734187, 3204031479, 3329325298]

/-- The SHA-256 initial hash value. -/
def shaH0 : List Nat :=
  [1779033703, 3144134277, 1013904242, 2773480762,
   1359893119, 2600822924, 528734635, 1541459225]

/-- Group bytes into big-endian 32-bit words. -/
def wordsFromBytesBE : List Nat → List Nat
  | b1 :: b2 :: b3 :: b4 :: rest =>
    (((b1 * 256 + b2) * 256 + b3) * 256 + b4) :: wordsFromBytesBE rest
  | _ => []

/-- One message-schedule extension step. -/
def shaExtendStep (w : List Nat) : List Nat :=
  w ++ [(shaSml1 (w.getD (w.length - 2) 0) + w.getD (w.length - 7) 0 +
         shaSml0 (w.getD (w.length - 15) 0) + w.getD (w.length - 16) 0) % 4294967296]

/-- Extend the 16 block words to the full 64-word schedule. -/
def shaExtendLoop : Nat → List Nat → List Nat
  | 0, w => w
  | n + 1, w => shaExtendLoop n (shaExtendStep w)

/-- The eight working registers of the compression loop. -/
structure Sha256Regs where
  a : Nat
  b : Nat
  c : Nat
  d : Nat
  e : Nat
  f : Nat
  g : Nat
  hh : Nat
deriving DecidableEq, Repr

/-- One compression round. -/
def shaRound (kt wt : Nat) (r : Sha256Regs) : Sha256Regs :=
  let t1 := (r.hh + shaBigSig1 r.e + shaCh r.e r.f r.g + kt + wt) % 4294967296
  let t2 := (shaBigSig0 r.a + shaMaj r.a r.b r.c) % 4294967296
  { a := (t1 + t2) % 4294967296, b := r.a, c := r.b, d := r.c,
    e := (r.d + t1) % 4294967296, f := r.e, g := r.f, hh := r.g }

/-- Run the 64 rounds over the constants and schedule. -/
def shaRounds : List Nat → List Nat → Sha256Regs → Sha256Regs
  | k :: ks, w :: ws, r => shaRounds ks ws (shaRound k w r)
  | _, _, r => r

/-- Compress one 64-byte block into the hash state. -/
def shaCompress (h : List Nat) (block : List Nat) : List Nat :=
  let w := shaExtendLoop 48 (wordsFromBytesBE block)
  let r0 : Sha256Regs :=
    ⟨h.getD 0 0, h.getD 1 0, h.getD 2 0, h.getD 3 0, h.getD 4 0, h.getD 5 0, h.getD 6 0, h.getD 7 0⟩
  let r := shaRounds shaK w r0
  [(h.getD 0 0 + r.a) % 4294967296, (h.getD 1 0 + r.b) % 4294967296,
   (h.getD 2 0 + r.c) % 4294967296, (h.getD 3 0 + r.d) % 4294967296,
   (h.getD 4 0 + r.e) % 4294967296, (h.getD 5 0 + r.f) % 4294967296,
   (h.getD 6 0 + r.g) % 4294967296, (h.getD 7 0 + r.hh) % 4294967296]

/-- Eight big-endian bytes of a 64-bit length. -/
def bytesBE8 (n : Nat) : List Nat :=
  [n / 72057594037927936 % 256, n / 281474976710656 % 256, n / 1099511627776 % 256,
   n / 4294967296 % 256, n / 16777216 % 256, n / 65536 % 256, n / 256 % 256, n % 256]

/-- SHA-256 padding: `0x80`, zeros to 56 mod 64, then the bit length. -/
def sha256Pad (msg : List Nat) : List Nat :=
  msg ++ 128 :: (List.replicate ((119 - msg.length % 64) % 64) 0 ++ bytesBE8 (8 * msg.length))

/-- Split into 64-byte blocks. -/
def chunks64 (bs : List Nat) : List (List Nat) :=
  if h : bs = [] then [] else bs.take 64 :: chunks64 (bs.drop 64)
termination_by bs.length
decreasing_by
  simp only [List.length_drop]
  have : 0 < bs.length := List.length_pos.mpr h
  omega

/-- The eight 32-bit words of the SHA-256 digest of a byte string. -/
def sha256Words (msg : List Nat) : List Nat :=
  (chunks64 (sha256Pad msg)).foldl shaCompress shaH0

/-- Digest words to bytes (big-endian). -/
def wordsToBytesBE : List Nat → List Nat
  | [] => []
  | w :: ws => w / 16777216 % 256 :: w / 65536 % 256 :: w / 256 % 256 :: w % 256 :: wordsToBytesBE ws

/-- Bytes to lower-case hex characters (`hexdigest()`). -/
def bytesToHex : List Nat → List Nat
  | [] => []
  | b :: bs => toHexChar (b / 16 % 16) :: toHexChar (b % 16) :: bytesToHex bs

/-- `hashlib.sha256(bs).hexdigest()` as a list of code points. -/
def sha256HexDigest (bs : List Nat) : List Nat := bytesToHex (wordsToBytesBE (sha256Words bs))

/-- `WALManager._sanitize_token` (wal.py lines 73-86): characters
outside `[a-zA-Z0-9_-]` removed, truncated to 20, then `_` and the first
8 hex characters of SHA-256 of `token.encode()`. -/
def sanitizeToken (token : List Nat) : List Nat :=
  (token.filter isTokenSafeChar).take 20 ++ (95 :: (sha256HexDigest (utf8Encode token)).take 8)

/-! ## Ready-segment enumeration (wal.py `get_ready_segments`) -/

/-- `SegmentInfo` as built by `_scan_for_ready_segments` (wal.py lines
199-213), with the path split into the tenant directory name and the
numeric suffix. -/
structure SegmentInfo where
  dirName : List Nat
  num : Nat
  size_bytes : Nat
  creation_time : ℚ
  last_write_time : ℚ
  entry_count : Nat
  is_ready : Bool
deriving DecidableEq, Repr

/-- The WAL root, as a finite map from directory name to directory
contents. -/
def WalRoot := List (List Nat × List SegFile)

/-- Contents of `wal_root / d`; a `glob` on a missing directory yields
nothing. -/
def fsDirFiles (fs : WalRoot) (d : List Nat) : List SegFile :=
  match fs.find? (fun p => p.1 == d) with
  | none => []
  | some p => p.2

/-- `WALManager._scan_for_ready_segments` for one directory. -/
def scanForReadySegments (d : List Nat) (files : List SegFile) : List SegmentInfo :=
  (files.filter (fun f => f.ext == SegExt.ready)).map (fun f =>
    { dirName := d, num := f.num, size_bytes := f.size, creation_time := f.ctime,
      last_write_time := f.mtime, entry_count := 0, is_ready := true })

/-- `WALManager.get_ready_segments` (wal.py lines 188-197).  Note that
with a `token` argument the source scans `self.wal_root / token`, using
the token verbatim as the directory name. -/
def getReadySegments (fs : WalRoot) (token : Option (List Nat)) : List SegmentInfo :=
  match token with
  | some t => scanForReadySegments t (fsDirFiles fs t)
  | none => (fs.map (fun p => scanForReadySegments p.1 p.2)).flatten

/-- The directory name `WALManager.append` writes into for a token
(`_ensure_token_directory`, wal.py lines 88-96). -/
def appendDirName (token : List Nat) : List Nat := sanitizeToken token

/-! ## Log entry validation (src/logstack/models/log_entry.py) -/

/-- The `LogLevel` enumeration. -/
inductive LogLevel where
  | DEBUG : LogLevel
  | INFO : LogLevel
  | WARN : LogLevel
  | ERROR : LogLevel
  | FATAL : LogLevel
deriving DecidableEq, Repr

/-- The string value of a level. -/
def levelStr : LogLevel → List Nat
  | .DEBUG => [68, 69, 66, 85, 71]
  | .INFO => [73, 78, 70, 79]
  | .WARN => [87, 65, 82, 78]
  | .ERROR => [69, 82, 82, 79, 82]
  | .FATAL => [70, 65, 84, 65, 76]

/-- Code points of a Lean string literal (convenience for writing
field names). -/
def strCodes (s : String) : List Nat := s.toList.map Char.toNat

/-- A parsed `LogEntry`.  The timestamp is carried in its serialized
RFC3339 form. -/
structure LogEntry where
  timestamp : List Nat
  level : LogLevel
  message : List Nat
  service : List Nat
  env : List Nat
  labels : Option (List (List Nat × List Nat)) := none
  trace_id : Option (List Nat) := none
  span_id : Option (List Nat) := none
  metadata : Option Json := none
deriving DecidableEq, Repr

/-- Characters allowed by the `^[a-z0-9-]+$` pattern on `service` and
`env`. -/
def isServiceChar (c : Nat) : Bool :=
  decide ((97 ≤ c ∧ c ≤ 122) ∨ (48 ≤ c ∧ c ≤ 57) ∨ c = 45)

/-- The label-key allow list of `validate_labels`. -/
def allowedLabelKeys : List (List Nat) :=
  [strCodes "service", strCodes "env", strCodes "level",
   strCodes "schema_version", strCodes "region", strCodes "tenant"]

/-- `LogEntry.validate_labels` (log_entry.py lines 77-101). -/
def validLabels : Option (List (List Nat × List Nat)) → Bool
  | none => true
  | some ls =>
    ls.length ≤ 6 &&
      ls.all (fun kv => allowedLabelKeys.contains kv.1 && kv.2.length ≤ 64)

mutual
/-- `check_depth` inside `validate_metadata` (log_entry.py lines
110-121): fails when the current depth exceeds 5. -/
def checkDepth : Json → Nat → Bool
  | v, d =>
    if d > 5 then false
    else match v with
      | .obj ms => checkMembersDepth ms (d + 1)
      | .arr es => checkElemsDepth es (d + 1)
      | _ => true
/-- `check_depth` over an object's values. -/
def checkMembersDepth : JsonMembers → Nat → Bool
  | .nil, _ => true
  | .cons _ v tl, d => checkDepth v d && checkMembersDepth tl d
/-- `check_depth` over a list's items. -/
def checkElemsDepth : JsonElems → Nat → Bool
  | .nil, _ => true
  | .cons v tl, d => checkDepth v d && checkElemsDepth tl d
end

/-- The field constraints `LogEntry` actually enforces (log_entry.py
lines 26-129): message 1-8192 chars, service 1-64 chars of `[a-z0-9-]`,
env 1-32 chars of `[a-z0-9-]`, trace_id ≤ 128, span_id ≤ 64, the label
rules, and metadata nesting depth ≤ 5. -/
def validLogEntry (e : LogEntry) : Bool :=
  1 ≤ e.message.length && e.message.length ≤ 8192 &&
  1 ≤ e.service.length && e.service.length ≤ 64 && e.service.all isServiceChar &&
  1 ≤ e.env.length && e.env.length ≤ 32 && e.env.all isServiceChar &&
  (match e.trace_id with | none => true | some t => t.length ≤ 128) &&
  (match e.span_id with | none => true | some t => t.length ≤ 64) &&
  validLabels e.labels &&
  (match e.metadata with | none => true | some m => checkDepth m 0)

/-- The JSON object produced by `entry.model_dump_json()` (pydantic
serialization: every field, optional fields as `null`, the level by its
enum value, compact separators). -/
def entryToJson (e : LogEntry) : Json :=
  .obj (.cons (strCodes "timestamp") (.str e.timestamp)
    (.cons (strCodes "level") (.str (levelStr e.level))
      (.cons (strCodes "message") (.str e.message)
        (.cons (strCodes "service") (.str e.service)
          (.cons (strCodes "env") (.str e.env)
            (.cons (strCodes "labels")
                (match e.labels with
                 | none => .null
                 | some ls => .obj (ls.foldr (fun kv acc => .cons kv.1 (.str kv.2) acc) .nil))
              (.cons (strCodes "trace_id")
                  (match e.trace_id with | none => .null | some t => .str t)
                (.cons (strCodes "span_id")
                    (match e.span_id with | none => .null | some t => .str t)
                  (.cons (strCodes "metadata")
                      (match e.metadata with | none => .null | some m => m)
                    .nil)))))))))

/-- `len(entry.model_dump_json())` for one entry. -/
def entrySerializedSize (e : LogEntry) : Nat := (dumpsCompactJson (entryToJson e)).length

/-- `LogBatch` validation (log_entry.py lines 132-156): 1-500 entries
and total serialized size at most 1 MiB.  (This and the per-field
constraints are the only size checks the models perform.) -/
def validLogBatch (es : List LogEntry) : Bool :=
  1 ≤ es.length && es.length ≤ 500 &&
    (es.map entrySerializedSize).sum ≤ 1048576


/-- A concrete entry used to exhibit the missing per-entry size check:
every enforced field constraint holds, but the metadata carries a
40000-character string, putting the serialized entry far over 32 KiB. -/
def oversizedEntry : LogEntry :=
  LogEntry.mk (strCodes "2025-01-01T00:00:00Z") LogLevel.INFO [109] [115] [112]
    none none none
    (some (Json.obj (JsonMembers.cons [97] (Json.str (List.replicate 40000 120))
      JsonMembers.nil)))

/-! ## Helper lemmas -/

/-- Every hex digit character is `0-9` or `a-f`. -/
theorem toHexChar_range (d : Nat) (hd : d < 16) :
    (48 ≤ toHexChar d ∧ toHexChar d ≤ 57) ∨ (97 ≤ toHexChar d ∧ toHexChar d ≤ 102) := by
  unfold toHexChar
  split <;> omega

/-- Characters of a hex digest are hex digit characters. -/
theorem mem_bytesToHex (c : Nat) (bs : List Nat) (h : c ∈ bytesToHex bs) :
    (48 ≤ c ∧ c ≤ 57) ∨ (97 ≤ c ∧ c ≤ 102) := by
  induction bs with
  | nil => simp [bytesToHex] at h
  | cons b bs ih =>
    simp only [bytesToHex, List.mem_cons] at h
    rcases h with h | h | h
    · subst h; exact toHexChar_range _ (Nat.mod_lt _ (by norm_num))
    · subst h; exact toHexChar_range _ (Nat.mod_lt _ (by norm_num))
    · exact ih h

/-- `skipWs` is the identity on input starting with a non-whitespace
character. -/
theorem skipWs_cons_not_ws (c : Nat) (s : List Nat) (h : isWsChar c = false) :
    skipWs (c :: s) = c :: s := by
  simp [skipWs, h]

/-- `skipWs` drops a leading whitespace character. -/
theorem skipWs_cons_ws (c : Nat) (s : List Nat) (h : isWsChar c = true) :
    skipWs (c :: s) = skipWs s := by
  simp [skipWs, h]

/-- All characters of `natDigits` are decimal digits. -/
theorem natDigits_mem_digit (n : Nat) : ∀ c ∈ natDigits n, 48 ≤ c ∧ c ≤ 57 := by
  induction n using Nat.strong_induction_on with
  | _ n ih =>
    intro c hc
    unfold natDigits at hc
    split at hc
    · simp only [List.mem_singleton] at hc
      omega
    · next h =>
      rcases List.mem_append.mp hc with h1 | h1
      · exact ih (n / 10) (Nat.div_lt_self (by omega) (by omega)) c h1
      · simp only [List.mem_singleton] at h1
        have := Nat.mod_lt n (show 0 < 10 by omega)
        omega

/-- `natDigits` is a nonempty list whose head is a digit, nonzero when
`n ≥ 1`. -/
theorem natDigits_cons (n : Nat) :
    ∃ d t, natDigits n = d :: t ∧ 48 ≤ d ∧ d ≤ 57 ∧ (1 ≤ n → 49 ≤ d) := by
  induction n using Nat.strong_induction_on with
  | _ n ih =>
    unfold natDigits
    split
    · next h => exact ⟨48 + n, [], rfl, by omega, by omega, by omega⟩
    · next h =>
      obtain ⟨d, t, hd, h1, h2, h3⟩ := ih (n / 10) (Nat.div_lt_self (by omega) (by omega))
      exact ⟨d, t ++ [48 + n % 10], by rw [hd]; rfl, h1, h2, fun _ => h3 (by omega)⟩

/-- Value of the digit string of `n` under the accumulator fold. -/
theorem natDigits_foldl (n : Nat) : ∀ acc,
    (natDigits n).foldl (fun a c => a * 10 + (c - 48)) acc =
      acc * 10 ^ (natDigits n).length + n := by
  induction n using Nat.strong_induction_on with
  | _ n ih =>
    intro acc
    unfold natDigits
    split
    · next h =>
      simp only [List.foldl_cons, List.foldl_nil, List.length_singleton, pow_one]
      omega
    · next h =>
      rw [List.foldl_append, ih (n / 10) (Nat.div_lt_self (by omega) (by omega)) acc]
      simp only [List.foldl_cons, List.foldl_nil, List.length_append,
        List.length_singleton, pow_succ]
      have hm : 48 + n % 10 - 48 = n % 10 := by omega
      rw [hm]
      ring_nf
      omega

/-- Greedy digit scanning consumes exactly a digit string when the
remainder does not start with a digit. -/
theorem parseDigitsAux_append (ds : List Nat) : ∀ acc rest,
    (∀ c ∈ ds, 48 ≤ c ∧ c ≤ 57) → headIsDigit rest = false →
    parseDigitsAux acc (ds ++ rest) =
      (ds.foldl (fun a c => a * 10 + (c - 48)) acc, rest) := by
  induction ds with
  | nil =>
    intro acc rest _ hrest
    cases rest with
    | nil => rfl
    | cons c cs =>
      simp only [headIsDigit, decide_eq_false_iff_not] at hrest
      simp [parseDigitsAux, hrest]
  | cons d ds ih =>
    intro acc rest hds hrest
    have hd := hds d (by simp)
    simp only [List.cons_append, parseDigitsAux, if_pos hd, List.foldl_cons]
    exact ih _ _ (fun c hc => hds c (by simp [hc])) hrest

/-- The number scanner parses back `natDigits n` (no leading zeros, and
the remainder must not begin with a digit because scanning is greedy). -/
theorem parsePyNat_natDigits (n : Nat) (rest : List Nat) (hrest : headIsDigit rest = false) :
    parsePyNat (natDigits n ++ rest) = some (n, rest) := by
  by_cases h0 : n = 0
  · subst h0
    have h48 : natDigits 0 = [48] := by simp [natDigits]
    rw [h48]
    simp [parsePyNat]
  · obtain ⟨d, t, hd, hge, hle, hpos⟩ := natDigits_cons n
    have h49 := hpos (by omega)
    rw [hd]
    simp only [List.cons_append, parsePyNat]
    rw [if_neg (by omega), if_pos (by omega)]
    have hdig : ∀ c ∈ t, 48 ≤ c ∧ c ≤ 57 := fun c hc =>
      natDigits_mem_digit n c (by rw [hd]; exact List.mem_cons_of_mem _ hc)
    rw [parseDigitsAux_append t (d - 48) rest hdig hrest]
    have hfold := natDigits_foldl n 0
    rw [hd] at hfold
    simp only [List.foldl_cons, Nat.zero_mul, Nat.zero_add, List.length_cons,
      pow_succ, zero_mul] at hfold
    rw [hfold]

/-- Hex decoding inverts hex encoding of a nibble. -/
theorem hexVal_toHexChar : ∀ d < 16, hexVal (toHexChar d) = some d := by decide

/-- Hex decoding inverts the four-digit hex encoding below 2^16. -/
theorem hex4Val_hex4 (n : Nat) (hn : n < 65536) :
    hex4Val (toHexChar (n / 4096 % 16)) (toHexChar (n / 256 % 16))
      (toHexChar (n / 16 % 16)) (toHexChar (n % 16)) = some n := by
  unfold hex4Val
  rw [hexVal_toHexChar _ (Nat.mod_lt _ (by omega)), hexVal_toHexChar _ (Nat.mod_lt _ (by omega)),
    hexVal_toHexChar _ (Nat.mod_lt _ (by omega)), hexVal_toHexChar _ (Nat.mod_lt _ (by omega))]
  exact congrArg some (by omega)

/-- A printable ASCII character other than `"` and `\` is emitted
verbatim by the JSON escaper. -/
theorem escapeChar_eq_of_lit (c : Nat) (h32 : 32 ≤ c) (h127 : c < 127)
    (h34 : c ≠ 34) (h92 : c ≠ 92) : escapeChar c = [c] := by
  unfold escapeChar
  rw [if_neg h34, if_neg h92, if_neg (by omega), if_neg (by omega), if_neg (by omega),
    if_neg (by omega), if_neg (by omega), if_neg (by omega), if_pos h127]

/-- One-step unfolding of the fueled string scanner (stated by hand:
the automatically generated equation lemmas are prohibitively expensive
for the kernel to check). -/
theorem parseStrBodyF_succ_cons (f c : Nat) (cs : List Nat) :
    parseStrBodyF (f + 1) (c :: cs) =
      (if c = 34 then some ([], cs)
       else if c = 92 then
        match cs with
        | [] => none
        | e :: r =>
          if e = 34 then (parseStrBodyF f r).map (fun p => (34 :: p.1, p.2))
          else if e = 92 then (parseStrBodyF f r).map (fun p => (92 :: p.1, p.2))
          else if e = 47 then (parseStrBodyF f r).map (fun p => (47 :: p.1, p.2))
          else if e = 98 then (parseStrBodyF f r).map (fun p => (8 :: p.1, p.2))
          else if e = 102 then (parseStrBodyF f r).map (fun p => (12 :: p.1, p.2))
          else if e = 110 then (parseStrBodyF f r).map (fun p => (10 :: p.1, p.2))
          else if e = 114 then (parseStrBodyF f r).map (fun p => (13 :: p.1, p.2))
          else if e = 116 then (parseStrBodyF f r).map (fun p => (9 :: p.1, p.2))
          else if e = 117 then
            match r with
            | a :: b :: d1 :: d2 :: r2 =>
              (match hex4Val a b d1 d2 with
               | none => none
               | some u =>
                 if 55296 ≤ u ∧ u < 56320 then
                   match r2 with
                   | 92 :: 117 :: a2 :: b2 :: c2 :: e2 :: r3 =>
                     (match hex4Val a2 b2 c2 e2 with
                      | some u2 =>
                        if 56320 ≤ u2 ∧ u2 < 57344 then
                          (parseStrBodyF f r3).map
                            (fun p => ((65536 + (u - 55296) * 1024 + (u2 - 56320)) :: p.1, p.2))
                        else (parseStrBodyF f r2).map (fun p => (u :: p.1, p.2))
                      | none => (parseStrBodyF f r2).map (fun p => (u :: p.1, p.2)))
                   | _ => (parseStrBodyF f r2).map (fun p => (u :: p.1, p.2))
                 else (parseStrBodyF f r2).map (fun p => (u :: p.1, p.2)))
            | _ => none
          else none
       else if c < 32 then none
       else (parseStrBodyF f cs).map (fun p => (c :: p.1, p.2))) := rfl

/-- Scanner step for a lone `\uXXXX` escape that is not a high
surrogate. -/
theorem parseStrBodyF_u_lone (f a b d1 d2 u : Nat) (r2 : List Nat)
    (hh : hex4Val a b d1 d2 = some u) (hns : ¬ (55296 ≤ u ∧ u < 56320)) :
    parseStrBodyF (f + 1) (92 :: 117 :: a :: b :: d1 :: d2 :: r2) =
      (parseStrBodyF f r2).map (fun p => (u :: p.1, p.2)) := by
  rw [parseStrBodyF_succ_cons]
  simp only [hh]
  norm_num [hns]

/-- Scanner step for a `\uXXXX\uXXXX` high/low surrogate pair: the two
escapes are combined into one astral code point. -/
theorem parseStrBodyF_u_pair (f a b d1 d2 a2 b2 c2 e2 u u2 : Nat) (r3 : List Nat)
    (hh : hex4Val a b d1 d2 = some u) (hhr : 55296 ≤ u ∧ u < 56320)
    (hl : hex4Val a2 b2 c2 e2 = some u2) (hlr : 56320 ≤ u2 ∧ u2 < 57344) :
    parseStrBodyF (f + 1) (92 :: 117 :: a :: b :: d1 :: d2 :: 92 :: 117 :: a2 :: b2 :: c2 :: e2 :: r3) =
      (parseStrBodyF f r3).map
        (fun p => ((65536 + (u - 55296) * 1024 + (u2 - 56320)) :: p.1, p.2)) := by
  rw [parseStrBodyF_succ_cons]
  simp only [hh, hl]
  norm_num [hhr, hlr]

set_option maxHeartbeats 1000000 in
/-- Every character escapes to a nonempty output. -/
theorem escapeChar_length_pos (c : Nat) : 1 ≤ (escapeChar c).length := by
  unfold escapeChar
  split_ifs <;> simp [hex4]

/-- Every escaped character occupies at least one output character. -/
theorem escapeString_length_ge (s : List Nat) : s.length ≤ (escapeString s).length := by
  induction s with
  | nil => simp [escapeString]
  | cons c cs ih =>
    have h1 := escapeChar_length_pos c
    simp only [escapeString, List.length_append, List.length_cons]
    omega

/-- The fueled string scanner inverts the escaper on strings of Unicode
scalar values, given fuel above the number of characters. -/
theorem parseStrBodyF_escape (s : List Nat) : ∀ fuel rest,
    (∀ c ∈ s, validScalar c = true) → s.length < fuel →
    parseStrBodyF fuel (escapeString s ++ (34 :: rest)) = some (s, rest) := by
  induction s with
  | nil =>
    intro fuel rest _ hfuel
    cases fuel with
    | zero => omega
    | succ f => simp [escapeString, parseStrBodyF_succ_cons]
  | cons c cs ih =>
    intro fuel rest hwf hfuel
    cases fuel with
    | zero => simp at hfuel
    | succ f =>
      have hc := hwf c (List.mem_cons_self _ _)
      have hIH : parseStrBodyF f (escapeString cs ++ (34 :: rest)) = some (cs, rest) := by
        refine ih f rest (fun x hx => hwf x (List.mem_cons_of_mem _ hx)) ?_
        simp only [List.length_cons] at hfuel
        omega
      simp only [validScalar, decide_eq_true_eq] at hc
      obtain ⟨hlt, hsur⟩ := hc
      simp only [escapeString, List.append_assoc]
      by_cases h34 : c = 34
      · subst h34; simp [escapeChar, parseStrBodyF_succ_cons, hIH]
      by_cases h92 : c = 92
      · subst h92; simp [escapeChar, parseStrBodyF_succ_cons, hIH]
      by_cases h8 : c = 8
      · subst h8; simp [escapeChar, parseStrBodyF_succ_cons, hIH]
      by_cases h12 : c = 12
      · subst h12; simp [escapeChar, parseStrBodyF_succ_cons, hIH]
      by_cases h10 : c = 10
      · subst h10; simp [escapeChar, parseStrBodyF_succ_cons, hIH]
      by_cases h13 : c = 13
      · subst h13; simp [escapeChar, parseStrBodyF_succ_cons, hIH]
      by_cases h9 : c = 9
      · subst h9; simp [escapeChar, parseStrBodyF_succ_cons, hIH]
      by_cases hctl : c < 32
      · have hec : escapeChar c = 92 :: 117 :: hex4 c := by
          unfold escapeChar
          rw [if_neg h34, if_neg h92, if_neg h8, if_neg h12, if_neg h10, if_neg h13,
            if_neg h9, if_pos hctl]
        have hns : ¬ (55296 ≤ c ∧ c < 56320) := by omega
        simp only [List.append_assoc] at hIH
        rw [hec]
        simp only [hex4, List.cons_append, List.nil_append]
        rw [parseStrBodyF_u_lone f _ _ _ _ c _ (hex4Val_hex4 c (by omega)) hns, hIH]
        rfl
      by_cases hlit : c < 127
      · rw [escapeChar_eq_of_lit c (by omega) hlit h34 h92]
        simp only [List.cons_append, List.nil_append, parseStrBodyF_succ_cons]
        rw [if_neg h34, if_neg h92, if_neg (by omega)]
        simp only [List.append_assoc] at hIH
        simp [hIH]
      by_cases hbmp : c < 65536
      · have hec : escapeChar c = 92 :: 117 :: hex4 c := by
          unfold escapeChar
          rw [if_neg h34, if_neg h92, if_neg h8, if_neg h12, if_neg h10, if_neg h13,
            if_neg h9, if_neg (by omega), if_neg (by omega), if_pos hbmp]
        have hnosur : ¬ (55296 ≤ c ∧ c < 56320) := by omega
        simp only [List.append_assoc] at hIH
        rw [hec]
        simp only [hex4, List.cons_append, List.nil_append]
        rw [parseStrBodyF_u_lone f _ _ _ _ c _ (hex4Val_hex4 c hbmp) hnosur, hIH]
        rfl
      · have hec : escapeChar c =
            (92 :: 117 :: hex4 (55296 + (c - 65536) / 1024)) ++
              (92 :: 117 :: hex4 (56320 + (c - 65536) % 1024)) := by
          unfold escapeChar
          rw [if_neg h34, if_neg h92, if_neg h8, if_neg h12, if_neg h10, if_neg h13,
            if_neg h9, if_neg (by omega), if_neg (by omega), if_neg (by omega)]
        have hhi : 55296 + (c - 65536) / 1024 < 65536 := by omega
        have hlo : 56320 + (c - 65536) % 1024 < 65536 := by
          have := Nat.mod_lt (c - 65536) (show 0 < 1024 by omega)
          omega
        have hhr : 55296 ≤ 55296 + (c - 65536) / 1024 ∧ 55296 + (c - 65536) / 1024 < 56320 := by
          omega
        have hlr : 56320 ≤ 56320 + (c - 65536) % 1024 ∧
            56320 + (c - 65536) % 1024 < 57344 := by
          have := Nat.mod_lt (c - 65536) (show 0 < 1024 by omega)
          omega
        simp only [List.append_assoc] at hIH
        rw [hec]
        simp only [hex4, List.cons_append, List.nil_append]
        rw [parseStrBodyF_u_pair f _ _ _ _ _ _ _ _ _ _ _
          (hex4Val_hex4 _ hhi) hhr (hex4Val_hex4 _ hlo) hlr, hIH]
        have hcomb : 65536 + (55296 + (c - 65536) / 1024 - 55296) * 1024 +
            (56320 + (c - 65536) % 1024 - 56320) = c := by omega
        simp [hcomb]
        omega

/-- The string scanner inverts the escaper: scanning
`escape(s) ++ '"' ++ rest` yields `s` and `rest`. -/
theorem parseStrBody_escape (s rest : List Nat)
    (hwf : ∀ c ∈ s, validScalar c = true) :
    parseStrBody (escapeString s ++ (34 :: rest)) = some (s, rest) := by
  unfold parseStrBody
  refine parseStrBodyF_escape s _ rest hwf ?_
  have := escapeString_length_ge s
  simp only [List.length_append, List.length_cons]
  omega

/-- One-step unfolding of `parseValue` (hand-written equation). -/
theorem parseValue_succ (f : Nat) (s : List Nat) :
    parseValue (f + 1) s =
      (match skipWs s with
       | [] => none
       | c :: cs =>
         if c = 110 then
           match cs with
           | 117 :: 108 :: 108 :: r => some (.null, r)
           | _ => none
         else if c = 116 then
           match cs with
           | 114 :: 117 :: 101 :: r => some (.bool true, r)
           | _ => none
         else if c = 102 then
           match cs with
           | 97 :: 108 :: 115 :: 101 :: r => some (.bool false, r)
           | _ => none
         else if c = 34 then (parseStrBody cs).map (fun p => (.str p.1, p.2))
         else if c = 91 then
           match skipWs cs with
           | [] => none
           | c2 :: r2 =>
             if c2 = 93 then some (.arr .nil, r2)
             else (parseElems f cs).map (fun p => (.arr p.1, p.2))
         else if c = 123 then
           match skipWs cs with
           | [] => none
           | c2 :: r2 =>
             if c2 = 125 then some (.obj .nil, r2)
             else (parseMembers f cs).map (fun p => (.obj p.1, p.2))
         else if c = 45 then (parsePyNat cs).map (fun p => (.int (-(p.1 : Int)), p.2))
         else (parsePyNat (c :: cs)).map (fun p => (.int (p.1 : Int), p.2))) := rfl

/-- One-step unfolding of `parseElems`. -/
theorem parseElems_succ (f : Nat) (s : List Nat) :
    parseElems (f + 1) s =
      (match parseValue f s with
       | none => none
       | some (v, r) =>
         match skipWs r with
         | [] => none
         | c :: r2 =>
           if c = 44 then (parseElems f r2).map (fun p => (.cons v p.1, p.2))
           else if c = 93 then some (.cons v .nil, r2)
           else none) := rfl

/-- One-step unfolding of `parseMembers`. -/
theorem parseMembers_succ (f : Nat) (s : List Nat) :
    parseMembers (f + 1) s =
      (match skipWs s with
       | [] => none
       | c :: cs =>
         if c = 34 then
           match parseStrBody cs with
           | none => none
           | some (k, r2) =>
             match skipWs r2 with
             | [] => none
             | c2 :: r3 =>
               if c2 = 58 then
                 match parseValue f r3 with
                 | none => none
                 | some (v, r4) =>
                   match skipWs r4 with
                   | [] => none
                   | c3 :: r5 =>
                     if c3 = 44 then (parseMembers f r5).map (fun p => (.cons k v p.1, p.2))
                     else if c3 = 125 then some (.cons k v .nil, r5)
                     else none
               else none
         else none) := rfl

/-- `parseValue` ignores a leading whitespace character. -/
theorem parseValue_ws (fuel w : Nat) (s : List Nat) (h : isWsChar w = true) :
    parseValue fuel (w :: s) = parseValue fuel s := by
  cases fuel with
  | zero => rfl
  | succ f => rw [parseValue_succ, parseValue_succ, skipWs_cons_ws _ _ h]

/-- `parseElems` ignores a leading whitespace character (through its
first `parseValue`). -/
theorem parseElems_ws (fuel w : Nat) (s : List Nat) (h : isWsChar w = true) :
    parseElems fuel (w :: s) = parseElems fuel s := by
  cases fuel with
  | zero => rfl
  | succ f => rw [parseElems_succ, parseElems_succ, parseValue_ws _ _ _ h]

/-- `parseMembers` ignores a leading whitespace character. -/
theorem parseMembers_ws (fuel w : Nat) (s : List Nat) (h : isWsChar w = true) :
    parseMembers fuel (w :: s) = parseMembers fuel s := by
  cases fuel with
  | zero => rfl
  | succ f => rw [parseMembers_succ, parseMembers_succ, skipWs_cons_ws _ _ h]

/-- `parseValue` on input starting with a digit dispatches to the
number scanner. -/
theorem parseValue_digit (f c : Nat) (cs : List Nat) (h48 : 48 ≤ c) (h57 : c ≤ 57) :
    parseValue (f + 1) (c :: cs) =
      (parsePyNat (c :: cs)).map (fun p => (.int (p.1 : Int), p.2)) := by
  have hws : isWsChar c = false := by
    simp only [isWsChar, Bool.or_eq_false_iff, decide_eq_false_iff_not]
    omega
  rw [parseValue_succ, skipWs_cons_not_ws _ _ hws]
  simp only []
  rw [if_neg (by omega), if_neg (by omega), if_neg (by omega), if_neg (by omega),
    if_neg (by omega), if_neg (by omega), if_neg (by omega)]

/-- The first character of a serialized JSON value: a literal keyword
head, a quote, a bracket, a brace, a minus sign or a digit. -/
theorem dumpsJson_head (v : Json) :
    ∃ c t, dumpsJson v = c :: t ∧
      (c = 110 ∨ c = 116 ∨ c = 102 ∨ c = 34 ∨ c = 91 ∨ c = 123 ∨ c = 45 ∨
        (48 ≤ c ∧ c ≤ 57)) := by
  cases v with
  | null => exact ⟨110, _, rfl, by omega⟩
  | bool b => cases b with
    | true => exact ⟨116, _, rfl, by omega⟩
    | false => exact ⟨102, _, rfl, by omega⟩
  | int n =>
    show ∃ c t, intRepr n = c :: t ∧ _
    unfold intRepr
    split
    · exact ⟨45, _, rfl, by omega⟩
    · obtain ⟨d, t, hd, h1, h2, _⟩ := natDigits_cons n.toNat
      exact ⟨d, t, hd, by omega⟩
  | str s => exact ⟨34, _, rfl, by omega⟩
  | arr es => cases es with
    | nil => exact ⟨91, _, rfl, by omega⟩
    | cons v vs => exact ⟨91, _, rfl, by omega⟩
  | obj ms => cases ms with
    | nil => exact ⟨123, _, rfl, by omega⟩
    | cons k v tl => exact ⟨123, _, rfl, by omega⟩

/-- The serialized tail of further array elements starts with `,` or
closes with the given bracket: never a digit. -/
theorem headIsDigit_elemsTail (vs : JsonElems) (rest : List Nat) :
    headIsDigit (dumpsElemsTail vs ++ (93 :: rest)) = false := by
  cases vs with
  | nil => simp [dumpsElemsTail, headIsDigit]
  | cons v tl => simp [dumpsElemsTail, headIsDigit]

/-- The serialized tail of further object members starts with `,` or
closes with the brace: never a digit. -/
theorem headIsDigit_membersTail (ms : JsonMembers) (rest : List Nat) :
    headIsDigit (dumpsMembersTail ms ++ (125 :: rest)) = false := by
  cases ms with
  | nil => simp [dumpsMembersTail, headIsDigit]
  | cons k v tl => simp [dumpsMembersTail, headIsDigit]

/-- `parseValue` after `[`, when the next non-space character does not
close the array, hands over to `parseElems`. -/
theorem parseValue_lbracket_ne (f c0 : Nat) (cs r0 : List Nat)
    (hskip : skipWs cs = c0 :: r0) (hne : ¬ c0 = 93) :
    parseValue (f + 1) (91 :: cs) = (parseElems f cs).map (fun p => (.arr p.1, p.2)) := by
  have h1 : parseValue (f + 1) (91 :: cs) =
      (match skipWs cs with
       | [] => none
       | c2 :: r2 =>
         if c2 = 93 then some (.arr .nil, r2)
         else (parseElems f cs).map (fun p => (.arr p.1, p.2))) := rfl
  rw [h1, hskip]
  show (if c0 = 93 then some (Json.arr .nil, r0)
        else (parseElems f cs).map (fun p => (.arr p.1, p.2))) = _
  rw [if_neg hne]

/-- `parseValue` after an opening brace, when the next non-space
character does not close the object, hands over to `parseMembers`. -/
theorem parseValue_lbrace_ne (f c0 : Nat) (cs r0 : List Nat)
    (hskip : skipWs cs = c0 :: r0) (hne : ¬ c0 = 125) :
    parseValue (f + 1) (123 :: cs) = (parseMembers f cs).map (fun p => (.obj p.1, p.2)) := by
  have h1 : parseValue (f + 1) (123 :: cs) =
      (match skipWs cs with
       | [] => none
       | c2 :: r2 =>
         if c2 = 125 then some (.obj .nil, r2)
         else (parseMembers f cs).map (fun p => (.obj p.1, p.2))) := rfl
  rw [h1, hskip]
  show (if c0 = 125 then some (Json.obj .nil, r0)
        else (parseMembers f cs).map (fun p => (.obj p.1, p.2))) = _
  rw [if_neg hne]

/-- `parseElems` step: one element followed by a comma. -/
theorem parseElems_comma (f : Nat) (s r r2 : List Nat) (v : Json)
    (hv : parseValue f s = some (v, r)) (hskip : skipWs r = 44 :: r2) :
    parseElems (f + 1) s = (parseElems f r2).map (fun p => (.cons v p.1, p.2)) := by
  have h1 : parseElems (f + 1) s =
      (match skipWs r with
       | [] => none
       | c :: r2 =>
         if c = 44 then (parseElems f r2).map (fun p => (.cons v p.1, p.2))
         else if c = 93 then some (.cons v .nil, r2)
         else none) := by
    rw [parseElems_succ, hv]
  rw [h1, hskip]
  rfl

/-- `parseElems` step: the final element followed by `]`. -/
theorem parseElems_close (f : Nat) (s r r2 : List Nat) (v : Json)
    (hv : parseValue f s = some (v, r)) (hskip : skipWs r = 93 :: r2) :
    parseElems (f + 1) s = some (.cons v .nil, r2) := by
  have h1 : parseElems (f + 1) s =
      (match skipWs r with
       | [] => none
       | c :: r2 =>
         if c = 44 then (parseElems f r2).map (fun p => (.cons v p.1, p.2))
         else if c = 93 then some (.cons v .nil, r2)
         else none) := by
    rw [parseElems_succ, hv]
  rw [h1, hskip]
  rfl

/-- `parseMembers` step: one `"key": value` pair followed by a comma. -/
theorem parseMembers_comma (f : Nat) (cs r2 r3 r4 r5 : List Nat) (k : List Nat) (v : Json)
    (hk : parseStrBody cs = some (k, r2)) (hc : skipWs r2 = 58 :: r3)
    (hv : parseValue f r3 = some (v, r4)) (hskip : skipWs r4 = 44 :: r5) :
    parseMembers (f + 1) (34 :: cs) =
      (parseMembers f r5).map (fun p => (.cons k v p.1, p.2)) := by
  have h1 : parseMembers (f + 1) (34 :: cs) =
      ((match parseStrBody cs with
       | none => none
       | some (k, r2) =>
         match skipWs r2 with
         | [] => none
         | c2 :: r3 =>
           if c2 = 58 then
             match parseValue f r3 with
             | none => none
             | some (v, r4) =>
               match skipWs r4 with
               | [] => none
               | c3 :: r5 =>
                 if c3 = 44 then (parseMembers f r5).map (fun p => (.cons k v p.1, p.2))
                 else if c3 = 125 then some (.cons k v .nil, r5)
                 else none
           else none) : Option (JsonMembers × List Nat)) := rfl
  rw [h1, hk]
  show ((match skipWs r2 with
       | [] => none
       | c2 :: r3 =>
         if c2 = 58 then
           match parseValue f r3 with
           | none => none
           | some (v, r4) =>
             match skipWs r4 with
             | [] => none
             | c3 :: r5 =>
               if c3 = 44 then (parseMembers f r5).map (fun p => (JsonMembers.cons k v p.1, p.2))
               else if c3 = 125 then some (JsonMembers.cons k v .nil, r5)
               else none
         else none) : Option (JsonMembers × List Nat)) = _
  rw [hc]
  show ((match parseValue f r3 with
       | none => none
       | some (v, r4) =>
         match skipWs r4 with
         | [] => none
         | c3 :: r5 =>
           if c3 = 44 then (parseMembers f r5).map (fun p => (JsonMembers.cons k v p.1, p.2))
           else if c3 = 125 then some (JsonMembers.cons k v .nil, r5)
           else none) : Option (JsonMembers × List Nat)) = _
  rw [hv]
  show ((match skipWs r4 with
       | [] => none
       | c3 :: r5 =>
         if c3 = 44 then (parseMembers f r5).map (fun p => (JsonMembers.cons k v p.1, p.2))
         else if c3 = 125 then some (JsonMembers.cons k v .nil, r5)
         else none) : Option (JsonMembers × List Nat)) = _
  rw [hskip]
  rfl

/-- `parseMembers` step: the final pair followed by a closing brace. -/
theorem parseMembers_close (f : Nat) (cs r2 r3 r4 r5 : List Nat) (k : List Nat) (v : Json)
    (hk : parseStrBody cs = some (k, r2)) (hc : skipWs r2 = 58 :: r3)
    (hv : parseValue f r3 = some (v, r4)) (hskip : skipWs r4 = 125 :: r5) :
    parseMembers (f + 1) (34 :: cs) = some (.cons k v .nil, r5) := by
  have h1 : parseMembers (f + 1) (34 :: cs) =
      ((match parseStrBody cs with
       | none => none
       | some (k, r2) =>
         match skipWs r2 with
         | [] => none
         | c2 :: r3 =>
           if c2 = 58 then
             match parseValue f r3 with
             | none => none
             | some (v, r4) =>
               match skipWs r4 with
               | [] => none
               | c3 :: r5 =>
                 if c3 = 44 then (parseMembers f r5).map (fun p => (.cons k v p.1, p.2))
                 else if c3 = 125 then some (.cons k v .nil, r5)
                 else none
           else none) : Option (JsonMembers × List Nat)) := rfl
  rw [h1, hk]
  show ((match skipWs r2 with
       | [] => none
       | c2 :: r3 =>
         if c2 = 58 then
           match parseValue f r3 with
           | none => none
           | some (v, r4) =>
             match skipWs r4 with
             | [] => none
             | c3 :: r5 =>
               if c3 = 44 then (parseMembers f r5).map (fun p => (JsonMembers.cons k v p.1, p.2))
               else if c3 = 125 then some (JsonMembers.cons k v .nil, r5)
               else none
         else none) : Option (JsonMembers × List Nat)) = _
  rw [hc]
  show ((match parseValue f r3 with
       | none => none
       | some (v, r4) =>
         match skipWs r4 with
         | [] => none
         | c3 :: r5 =>
           if c3 = 44 then (parseMembers f r5).map (fun p => (JsonMembers.cons k v p.1, p.2))
           else if c3 = 125 then some (JsonMembers.cons k v .nil, r5)
           else none) : Option (JsonMembers × List Nat)) = _
  rw [hv]
  show ((match skipWs r4 with
       | [] => none
       | c3 :: r5 =>
         if c3 = 44 then (parseMembers f r5).map (fun p => (JsonMembers.cons k v p.1, p.2))
         else if c3 = 125 then some (JsonMembers.cons k v .nil, r5)
         else none) : Option (JsonMembers × List Nat)) = _
  rw [hskip]
  rfl

/-- `sizeJson` is positive. -/
theorem sizeJson_pos (v : Json) : 1 ≤ sizeJson v := by
  cases v with
  | null => simp [sizeJson]
  | bool b => simp [sizeJson]
  | int n => simp [sizeJson]
  | str s => simp [sizeJson]
  | arr es => cases es <;> simp [sizeJson]
  | obj ms => cases ms <;> simp [sizeJson]

set_option maxHeartbeats 1000000 in
/-- Round-trip workhorse: the fueled scanners invert `dumpsJson` on
well-formed values; by strong induction on the serialized value's
size. -/
theorem parse_dumps_aux : ∀ N : Nat,
    (∀ v fuel rest, sizeJson v ≤ N → wfJson v = true → sizeJson v ≤ fuel →
      headIsDigit rest = false →
      parseValue fuel (dumpsJson v ++ rest) = some (v, rest)) ∧
    (∀ v vs fuel rest, sizeElems (JsonElems.cons v vs) ≤ N →
      wfJson v = true → wfElems vs = true → sizeElems (JsonElems.cons v vs) ≤ fuel →
      parseElems fuel (dumpsJson v ++ (dumpsElemsTail vs ++ (93 :: rest))) =
        some (JsonElems.cons v vs, rest)) ∧
    (∀ k v ms fuel rest, sizeMembers (JsonMembers.cons k v ms) ≤ N →
      k.all validScalar = true → wfJson v = true → wfMembers ms = true →
      sizeMembers (JsonMembers.cons k v ms) ≤ fuel →
      parseMembers fuel
          (34 :: (escapeString k ++ (34 :: (58 :: 32 :: (dumpsJson v ++
            (dumpsMembersTail ms ++ (125 :: rest))))))) =
        some (JsonMembers.cons k v ms, rest)) := by
  intro N
  induction N using Nat.strong_induction_on with
  | _ N ih =>
    refine ⟨?_, ?_, ?_⟩
    · intro v fuel rest hN hwf hfuel hrest
      obtain ⟨f, rfl⟩ : ∃ f, fuel = f + 1 := by
        have := sizeJson_pos v
        cases fuel with
        | zero => omega
        | succ f => exact ⟨f, rfl⟩
      cases v with
      | null => exact rfl
      | bool b => cases b with
        | true => exact rfl
        | false => exact rfl
      | int n =>
        show parseValue (f + 1) (intRepr n ++ rest) = some (Json.int n, rest)
        by_cases hneg : n < 0
        · have hir : intRepr n = 45 :: natDigits n.natAbs := by
            unfold intRepr
            rw [if_pos hneg]
          rw [hir, List.cons_append]
          have h45 : parseValue (f + 1) (45 :: (natDigits n.natAbs ++ rest)) =
              (parsePyNat (natDigits n.natAbs ++ rest)).map
                (fun p => (Json.int (-(p.1 : Int)), p.2)) := rfl
          rw [h45, parsePyNat_natDigits _ _ hrest]
          have hab : -((n.natAbs : Nat) : Int) = n := by omega
          simp only [Option.map_some', hab]
        · have hir : intRepr n = natDigits n.toNat := by
            unfold intRepr
            rw [if_neg hneg]
          obtain ⟨d, t, hd, h48, h57, _⟩ := natDigits_cons n.toNat
          rw [hir, hd, List.cons_append, parseValue_digit f d _ h48 h57, ← List.cons_append,
            ← hd, parsePyNat_natDigits _ _ hrest]
          have htn : ((n.toNat : Nat) : Int) = n := by omega
          simp only [Option.map_some', htn]
      | str s =>
        have hall : s.all validScalar = true := hwf
        have hS : parseStrBody (escapeString s ++ (34 :: rest)) = some (s, rest) :=
          parseStrBody_escape s rest (fun c hc => by
            have := List.all_eq_true.mp hall c hc
            simpa using this)
        have hgoal : parseValue (f + 1) (dumpsJson (Json.str s) ++ rest) =
            (parseStrBody (escapeString s ++ (34 :: rest))).map
              (fun p => (Json.str p.1, p.2)) := by
          show (parseStrBody ((escapeString s ++ [34]) ++ rest)).map
              (fun p => (Json.str p.1, p.2)) = _
          rw [List.append_assoc]
          rfl
        rw [hgoal, hS]
        rfl
      | arr es =>
        cases es with
        | nil => exact rfl
        | cons v vs =>
          have hN1 : 1 + sizeElems (JsonElems.cons v vs) ≤ N := hN
          have hf1 : 1 + sizeElems (JsonElems.cons v vs) ≤ f + 1 := hfuel
          have hw1 : (wfJson v && wfElems vs) = true := hwf
          obtain ⟨hwv, hwvs⟩ : wfJson v = true ∧ wfElems vs = true := by simpa using hw1
          obtain ⟨ihV, ihE, ihM⟩ := ih (N - 1) (by omega)
          have hE := ihE v vs f rest (by omega) hwv hwvs (by omega)
          have hshape : dumpsJson (Json.arr (JsonElems.cons v vs)) ++ rest =
              91 :: (dumpsJson v ++ (dumpsElemsTail vs ++ (93 :: rest))) := by
            show (91 :: ((dumpsJson v ++ dumpsElemsTail vs) ++ [93])) ++ rest = _
            simp only [List.cons_append, List.append_assoc, List.singleton_append, List.nil_append]
          rw [hshape]
          obtain ⟨c0, t0, hd0, hds⟩ := dumpsJson_head v
          have hskip0 : skipWs (dumpsJson v ++ (dumpsElemsTail vs ++ (93 :: rest))) =
              c0 :: (t0 ++ (dumpsElemsTail vs ++ (93 :: rest))) := by
            rw [hd0, List.cons_append]
            exact skipWs_cons_not_ws _ _ (by
              simp only [isWsChar, Bool.or_eq_false_iff, decide_eq_false_iff_not]
              omega)
          rw [parseValue_lbracket_ne f c0 _ _ hskip0 (by omega), hE]
          rfl
      | obj ms =>
        cases ms with
        | nil => exact rfl
        | cons k v tl =>
          have hN1 : 1 + sizeMembers (JsonMembers.cons k v tl) ≤ N := hN
          have hf1 : 1 + sizeMembers (JsonMembers.cons k v tl) ≤ f + 1 := hfuel
          have hw1 : (List.all k validScalar && wfJson v && wfMembers tl) = true := hwf
          obtain ⟨⟨hwk, hwv⟩, hwtl⟩ :
              (List.all k validScalar = true ∧ wfJson v = true) ∧ wfMembers tl = true := by
            simpa [and_assoc] using hw1
          obtain ⟨ihV, ihE, ihM⟩ := ih (N - 1) (by omega)
          have hM := ihM k v tl f rest (by omega) hwk hwv hwtl (by omega)
          have hshape : dumpsJson (Json.obj (JsonMembers.cons k v tl)) ++ rest =
              123 :: (34 :: (escapeString k ++ (34 :: (58 :: 32 :: (dumpsJson v ++
                (dumpsMembersTail tl ++ (125 :: rest))))))) := by
            show (123 :: ((((34 :: (escapeString k ++ [34])) ++ (58 :: 32 :: dumpsJson v)) ++
              dumpsMembersTail tl) ++ [125])) ++ rest = _
            simp only [List.cons_append, List.append_assoc, List.singleton_append, List.nil_append]
          rw [hshape]
          have hskip0 : skipWs (34 :: (escapeString k ++ (34 :: (58 :: 32 :: (dumpsJson v ++
              (dumpsMembersTail tl ++ (125 :: rest))))))) =
              34 :: (escapeString k ++ (34 :: (58 :: 32 :: (dumpsJson v ++
                (dumpsMembersTail tl ++ (125 :: rest)))))) :=
            skipWs_cons_not_ws _ _ (by decide)
          rw [parseValue_lbrace_ne f 34 _ _ hskip0 (by decide), hM]
          rfl
    · intro v vs fuel rest hN hwv hwvs hfuel
      obtain ⟨f, rfl⟩ : ∃ f, fuel = f + 1 := by
        have hpos : 1 ≤ sizeElems (JsonElems.cons v vs) := by
          show 1 ≤ 1 + sizeJson v + sizeElems vs
          omega
        cases fuel with
        | zero => omega
        | succ f => exact ⟨f, rfl⟩
      have hN' : 1 + sizeJson v + sizeElems vs ≤ N := hN
      have hf' : 1 + sizeJson v + sizeElems vs ≤ f + 1 := hfuel
      obtain ⟨ihV, ihE, ihM⟩ := ih (N - 1) (by omega)
      have hV := ihV v f (dumpsElemsTail vs ++ (93 :: rest)) (by omega) hwv (by omega)
        (headIsDigit_elemsTail vs rest)
      cases vs with
      | nil =>
        have hskip : skipWs (dumpsElemsTail JsonElems.nil ++ (93 :: rest)) = 93 :: rest := by
          show skipWs (93 :: rest) = 93 :: rest
          exact skipWs_cons_not_ws _ _ (by decide)
        exact parseElems_close f _ _ rest v hV hskip
      | cons v2 vs2 =>
        have hw2 : (wfJson v2 && wfElems vs2) = true := hwvs
        obtain ⟨hwv2, hwvs2⟩ : wfJson v2 = true ∧ wfElems vs2 = true := by simpa using hw2
        have hshape : dumpsElemsTail (JsonElems.cons v2 vs2) ++ (93 :: rest) =
            44 :: (32 :: (dumpsJson v2 ++ (dumpsElemsTail vs2 ++ (93 :: rest)))) := by
          show (44 :: 32 :: (dumpsJson v2 ++ dumpsElemsTail vs2)) ++ (93 :: rest) = _
          simp only [List.cons_append, List.append_assoc]
        have hskip : skipWs (dumpsElemsTail (JsonElems.cons v2 vs2) ++ (93 :: rest)) =
            44 :: (32 :: (dumpsJson v2 ++ (dumpsElemsTail vs2 ++ (93 :: rest)))) := by
          rw [hshape]
          exact skipWs_cons_not_ws _ _ (by decide)
        rw [parseElems_comma f _ _ _ v hV hskip]
        rw [parseElems_ws f 32 _ (by decide)]
        rw [ihE v2 vs2 f rest (by
          have : 1 ≤ sizeJson v := sizeJson_pos v
          omega) hwv2 hwvs2 (by omega)]
        rfl
    · intro k v ms fuel rest hN hwk hwv hwm hfuel
      obtain ⟨f, rfl⟩ : ∃ f, fuel = f + 1 := by
        have hpos : 1 ≤ sizeMembers (JsonMembers.cons k v ms) := by
          show 1 ≤ 1 + sizeJson v + sizeMembers ms
          omega
        cases fuel with
        | zero => omega
        | succ f => exact ⟨f, rfl⟩
      have hN' : 1 + sizeJson v + sizeMembers ms ≤ N := hN
      have hf' : 1 + sizeJson v + sizeMembers ms ≤ f + 1 := hfuel
      obtain ⟨ihV, ihE, ihM⟩ := ih (N - 1) (by omega)
      have hK : parseStrBody (escapeString k ++ (34 :: (58 :: 32 :: (dumpsJson v ++
          (dumpsMembersTail ms ++ (125 :: rest)))))) =
          some (k, 58 :: 32 :: (dumpsJson v ++ (dumpsMembersTail ms ++ (125 :: rest)))) :=
        parseStrBody_escape k _ (fun c hc => by
          have := List.all_eq_true.mp hwk c hc
          simpa using this)
      have hC : skipWs (58 :: 32 :: (dumpsJson v ++ (dumpsMembersTail ms ++ (125 :: rest)))) =
          58 :: (32 :: (dumpsJson v ++ (dumpsMembersTail ms ++ (125 :: rest)))) :=
        skipWs_cons_not_ws _ _ (by decide)
      have hV0 : parseValue f (32 :: (dumpsJson v ++ (dumpsMembersTail ms ++ (125 :: rest)))) =
          some (v, dumpsMembersTail ms ++ (125 :: rest)) := by
        rw [parseValue_ws f 32 _ (by decide)]
        exact ihV v f _ (by omega) hwv (by omega) (headIsDigit_membersTail ms rest)
      cases ms with
      | nil =>
        have hskip : skipWs (dumpsMembersTail JsonMembers.nil ++ (125 :: rest)) = 125 :: rest := by
          show skipWs (125 :: rest) = 125 :: rest
          exact skipWs_cons_not_ws _ _ (by decide)
        exact parseMembers_close f _ _ _ _ rest k v hK hC hV0 hskip
      | cons k2 v2 ms2 =>
        have hw2 : (List.all k2 validScalar && wfJson v2 && wfMembers ms2) = true := hwm
        obtain ⟨⟨hwk2, hwv2⟩, hwm2⟩ :
            (List.all k2 validScalar = true ∧ wfJson v2 = true) ∧ wfMembers ms2 = true := by
          simpa [and_assoc] using hw2
        have hshape : dumpsMembersTail (JsonMembers.cons k2 v2 ms2) ++ (125 :: rest) =
            44 :: (32 :: (34 :: (escapeString k2 ++ (34 :: (58 :: 32 :: (dumpsJson v2 ++
              (dumpsMembersTail ms2 ++ (125 :: rest)))))))) := by
          show (44 :: 32 :: (((34 :: (escapeString k2 ++ [34])) ++ (58 :: 32 :: dumpsJson v2)) ++
            dumpsMembersTail ms2)) ++ (125 :: rest) = _
          simp only [List.cons_append, List.append_assoc, List.singleton_append, List.nil_append]
        have hskip : skipWs (dumpsMembersTail (JsonMembers.cons k2 v2 ms2) ++ (125 :: rest)) =
            44 :: (32 :: (34 :: (escapeString k2 ++ (34 :: (58 :: 32 :: (dumpsJson v2 ++
              (dumpsMembersTail ms2 ++ (125 :: rest)))))))) := by
          rw [hshape]
          exact skipWs_cons_not_ws _ _ (by decide)
        rw [parseMembers_comma f _ _ _ _ _ k v hK hC hV0 hskip]
        rw [parseMembers_ws f 32 _ (by decide)]
        rw [ihM k2 v2 ms2 f rest (by
          have : 1 ≤ sizeJson v := sizeJson_pos v
          omega) hwk2 hwv2 hwm2 (by omega)]
        rfl

/-- The fuel bound `sizeJson` is dominated by the serialized length
(so `length + 1` fuel always suffices for `pyJsonLoads`). -/
theorem size_le_dumps_aux : ∀ N : Nat,
    (∀ v, sizeJson v ≤ N → sizeJson v ≤ (dumpsJson v).length) ∧
    (∀ v vs, sizeElems (JsonElems.cons v vs) ≤ N →
      sizeElems (JsonElems.cons v vs) ≤
        (dumpsJson v).length + (dumpsElemsTail vs).length + 1) ∧
    (∀ k v ms, sizeMembers (JsonMembers.cons k v ms) ≤ N →
      sizeMembers (JsonMembers.cons k v ms) ≤
        (dumpsJson v).length + (dumpsMembersTail ms).length + 1) := by
  intro N
  induction N using Nat.strong_induction_on with
  | _ N ih =>
    refine ⟨?_, ?_, ?_⟩
    · intro v hN
      cases v with
      | null => decide
      | bool b => cases b <;> decide
      | int n =>
        obtain ⟨d, t, hd, _, _, _⟩ := natDigits_cons n.toNat
        show 1 ≤ (intRepr n).length
        unfold intRepr
        split
        · simp
        · rw [hd]; simp
      | str s => show 1 ≤ (encStr s).length; simp [encStr]
      | arr es =>
        cases es with
        | nil => show 1 ≤ 2; omega
        | cons v vs =>
          have hN1 : 1 + sizeElems (JsonElems.cons v vs) ≤ N := hN
          obtain ⟨ihV, ihE, ihM⟩ := ih (N - 1) (by omega)
          have hB := ihE v vs (by omega)
          have hlen : (dumpsJson (Json.arr (JsonElems.cons v vs))).length =
              (dumpsJson v).length + (dumpsElemsTail vs).length + 2 := by
            show (91 :: ((dumpsJson v ++ dumpsElemsTail vs) ++ [93])).length = _
            simp [List.length_append]
            omega
          show 1 + sizeElems (JsonElems.cons v vs) ≤ _
          rw [hlen]
          omega
      | obj ms =>
        cases ms with
        | nil => show 1 ≤ 2; omega
        | cons k v tl =>
          have hN1 : 1 + sizeMembers (JsonMembers.cons k v tl) ≤ N := hN
          obtain ⟨ihV, ihE, ihM⟩ := ih (N - 1) (by omega)
          have hC := ihM k v tl (by omega)
          have hlen : (dumpsJson (Json.obj (JsonMembers.cons k v tl))).length =
              (encStr k).length + (dumpsJson v).length + (dumpsMembersTail tl).length + 4 := by
            show (123 :: ((((34 :: (escapeString k ++ [34])) ++ (58 :: 32 :: dumpsJson v)) ++
              dumpsMembersTail tl) ++ [125])).length = _
            simp [List.length_append, encStr]
            omega
          have henc : 2 ≤ (encStr k).length := by simp [encStr]
          show 1 + sizeMembers (JsonMembers.cons k v tl) ≤ _
          rw [hlen]
          omega
    · intro v vs hN
      have hN' : 1 + sizeJson v + sizeElems vs ≤ N := hN
      have hvpos := sizeJson_pos v
      obtain ⟨ihV, ihE, ihM⟩ := ih (N - 1) (by omega)
      have hA := ihV v (by omega)
      show 1 + sizeJson v + sizeElems vs ≤ _
      cases vs with
      | nil =>
        have h0 : sizeElems JsonElems.nil = 0 := rfl
        have hd : (dumpsElemsTail JsonElems.nil).length = 0 := rfl
        omega
      | cons v2 vs2 =>
        have hB := ihE v2 vs2 (by omega)
        have hlen : (dumpsElemsTail (JsonElems.cons v2 vs2)).length =
            (dumpsJson v2).length + (dumpsElemsTail vs2).length + 2 := by
          show (44 :: 32 :: (dumpsJson v2 ++ dumpsElemsTail vs2)).length = _
          simp [List.length_append]
        rw [hlen]
        have : sizeElems (JsonElems.cons v2 vs2) ≤
            (dumpsJson v2).length + (dumpsElemsTail vs2).length + 1 := hB
        omega
    · intro k v ms hN
      have hN' : 1 + sizeJson v + sizeMembers ms ≤ N := hN
      have hvpos := sizeJson_pos v
      obtain ⟨ihV, ihE, ihM⟩ := ih (N - 1) (by omega)
      have hA := ihV v (by omega)
      show 1 + sizeJson v + sizeMembers ms ≤ _
      cases ms with
      | nil =>
        have h0 : sizeMembers JsonMembers.nil = 0 := rfl
        have hd : (dumpsMembersTail JsonMembers.nil).length = 0 := rfl
        omega
      | cons k2 v2 ms2 =>
        have hC := ihM k2 v2 ms2 (by omega)
        have hlen : (dumpsMembersTail (JsonMembers.cons k2 v2 ms2)).length =
            (encStr k2).length + (dumpsJson v2).length + (dumpsMembersTail ms2).length + 4 := by
          show (44 :: 32 :: (((34 :: (escapeString k2 ++ [34])) ++ (58 :: 32 :: dumpsJson v2)) ++
            dumpsMembersTail ms2)).length = _
          simp [List.length_append, encStr]
          omega
        rw [hlen]
        have : sizeMembers (JsonMembers.cons k2 v2 ms2) ≤
            (dumpsJson v2).length + (dumpsMembersTail ms2).length + 1 := hC
        omega

/-- `json.loads` inverts `json.dumps` on well-formed values. -/
theorem pyJsonLoads_dumps (v : Json) (hwf : wfJson v = true) :
    pyJsonLoads (dumpsJson v) = some v := by
  unfold pyJsonLoads
  have hsz : sizeJson v ≤ (dumpsJson v).length :=
    (size_le_dumps_aux (sizeJson v)).1 v le_rfl
  have h1 : parseValue ((dumpsJson v).length + 1) (dumpsJson v ++ []) = some (v, []) :=
    (parse_dumps_aux (sizeJson v)).1 v _ [] le_rfl hwf (by omega) rfl
  rw [List.append_nil] at h1
  rw [h1]
  rfl

/-- `struct.unpack('<I', struct.pack('<I', n))` is the identity below `2^32`. -/
theorem readU32LE_u32le (n : Nat) (h : n < 4294967296) : readU32LE (u32le n) = n := by
  show n % 256 + 256 * (n / 256 % 256) + 65536 * (n / 65536 % 256) +
    16777216 * (n / 16777216 % 256) = n
  omega

/-- One CRC bit step keeps the register below `2^32`. -/
theorem crc32Bit_lt (r : Nat) (h : r < 4294967296) : crc32Bit r < 4294967296 := by
  unfold crc32Bit
  split
  · have h1 : r / 2 < 2 ^ 32 := by omega
    have h2 : (0xEDB88320 : Nat) < 2 ^ 32 := by norm_num
    have := Nat.xor_lt_two_pow h1 h2
    omega
  · omega

/-- One CRC byte step keeps the register below `2^32`. -/
theorem crc32Byte_lt (r b : Nat) (hr : r < 4294967296) (hb : b < 256) :
    crc32Byte r b < 4294967296 := by
  have h0 : r ^^^ b < 4294967296 := by
    have hx : r < 2 ^ 32 := by omega
    have hy : b < 2 ^ 32 := by omega
    have := Nat.xor_lt_two_pow hx hy
    omega
  exact crc32Bit_lt _ (crc32Bit_lt _ (crc32Bit_lt _ (crc32Bit_lt _ (crc32Bit_lt _
    (crc32Bit_lt _ (crc32Bit_lt _ (crc32Bit_lt _ h0)))))))

/-- The CRC fold keeps the register below `2^32` on byte input. -/
theorem crc32_foldl_lt (bs : List Nat) : ∀ r, r < 4294967296 → (∀ b ∈ bs, b < 256) →
    bs.foldl crc32Byte r < 4294967296 := by
  induction bs with
  | nil => intro r hr _; simpa using hr
  | cons b bs ih =>
    intro r hr hb
    simp only [List.foldl_cons]
    exact ih _ (crc32Byte_lt r b hr (hb b (List.mem_cons_self b bs)))
      (fun x hx => hb x (List.mem_cons_of_mem b hx))

/-- `zlib.crc32` of byte input fits in 32 bits (it is packed with
`struct.pack('<I', ...)` in the writer). -/
theorem crc32_lt (bs : List Nat) (hb : ∀ b ∈ bs, b < 256) : crc32 bs < 4294967296 := by
  unfold crc32
  have h1 : bs.foldl crc32Byte 4294967295 < 4294967296 := crc32_foldl_lt bs _ (by norm_num) hb
  have := Nat.xor_lt_two_pow (show bs.foldl crc32Byte 4294967295 < 2 ^ 32 by omega)
    (show (4294967295 : Nat) < 2 ^ 32 by norm_num)
  omega

/-- UTF-8 encoding is the identity on ASCII strings. -/
theorem utf8Encode_ascii (s : List Nat) (h : ∀ c ∈ s, c < 128) : utf8Encode s = s := by
  induction s with
  | nil => rfl
  | cons c cs ih =>
    have hc : c < 128 := h c (List.mem_cons_self c cs)
    show utf8EncodeChar c ++ utf8Encode cs = c :: cs
    rw [ih (fun x hx => h x (List.mem_cons_of_mem c hx))]
    unfold utf8EncodeChar
    rw [if_pos hc]
    rfl

/-- One-step unfolding of the fueled UTF-8 decoder on a cons cell. -/
theorem utf8DecodeF_succ_cons (fuel b : Nat) (bs : List Nat) :
    utf8DecodeF (fuel + 1) (b :: bs) =
      (if b < 128 then (utf8DecodeF fuel bs).map (b :: ·)
      else if 194 ≤ b ∧ b < 224 then
        match bs with
        | b2 :: bs2 =>
          if 128 ≤ b2 ∧ b2 < 192 then
            (utf8DecodeF fuel bs2).map (((b - 192) * 64 + (b2 - 128)) :: ·)
          else none
        | [] => none
      else if 224 ≤ b ∧ b < 240 then
        match bs with
        | b2 :: b3 :: bs2 =>
          if 128 ≤ b2 ∧ b2 < 192 ∧ 128 ≤ b3 ∧ b3 < 192 then
            if 2048 ≤ (b - 224) * 4096 + (b2 - 128) * 64 + (b3 - 128) ∧
                ¬ (55296 ≤ (b - 224) * 4096 + (b2 - 128) * 64 + (b3 - 128) ∧
                   (b - 224) * 4096 + (b2 - 128) * 64 + (b3 - 128) < 57344) then
              (utf8DecodeF fuel bs2).map (((b - 224) * 4096 + (b2 - 128) * 64 + (b3 - 128)) :: ·)
            else none
          else none
        | _ => none
      else if 240 ≤ b ∧ b < 245 then
        match bs with
        | b2 :: b3 :: b4 :: bs2 =>
          if 128 ≤ b2 ∧ b2 < 192 ∧ 128 ≤ b3 ∧ b3 < 192 ∧ 128 ≤ b4 ∧ b4 < 192 then
            if 65536 ≤ (b - 240) * 262144 + (b2 - 128) * 4096 + (b3 - 128) * 64 + (b4 - 128) ∧
                (b - 240) * 262144 + (b2 - 128) * 4096 + (b3 - 128) * 64 + (b4 - 128) < 1114112 then
              (utf8DecodeF fuel bs2).map
                (((b - 240) * 262144 + (b2 - 128) * 4096 + (b3 - 128) * 64 + (b4 - 128)) :: ·)
            else none
          else none
        | _ => none
      else none) := rfl

/-- With enough fuel, the UTF-8 decoder is the identity on ASCII input. -/
theorem utf8DecodeF_ascii : ∀ f s, s.length < f → (∀ c ∈ s, c < 128) →
    utf8DecodeF f s = some s := by
  intro f
  induction f with
  | zero => intro s hl _; simp at hl
  | succ f ih =>
    intro s hl hc
    cases s with
    | nil => rfl
    | cons c cs =>
      have h1 : c < 128 := hc c (List.mem_cons_self c cs)
      rw [utf8DecodeF_succ_cons, if_pos h1,
        ih cs (by simp only [List.length_cons] at hl; omega)
          (fun x hx => hc x (List.mem_cons_of_mem c hx))]
      rfl

/-- UTF-8 decoding is the identity on ASCII byte strings. -/
theorem utf8Decode_ascii (s : List Nat) (h : ∀ c ∈ s, c < 128) : utf8Decode s = some s :=
  utf8DecodeF_ascii (s.length + 1) s (by omega) h

/-- Hex digit characters are ASCII. -/
theorem toHexChar_ascii (d : Nat) (hd : d < 16) : toHexChar d < 128 := by
  rcases toHexChar_range d hd with h | h <;> omega

/-- The characters of a `\uXXXX` escape's digits are ASCII. -/
theorem hex4_ascii (n : Nat) : ∀ c ∈ hex4 n, c < 128 := by
  intro c hc
  simp only [hex4, List.mem_cons, List.not_mem_nil, or_false] at hc
  rcases hc with h | h | h | h <;> subst h <;>
    exact toHexChar_ascii _ (Nat.mod_lt _ (by norm_num))

/-- The characters of a full `\uXXXX` escape are ASCII. -/
theorem escU_ascii (m : Nat) : ∀ x ∈ 92 :: 117 :: hex4 m, x < 128 := by
  intro x hx
  rcases List.mem_cons.mp hx with h | hx
  · omega
  rcases List.mem_cons.mp hx with h | hx
  · omega
  · exact hex4_ascii m x hx

set_option maxHeartbeats 1000000 in
/-- `json.dumps` escaping with `ensure_ascii=True` only emits ASCII. -/
theorem escapeChar_ascii (c : Nat) : ∀ x ∈ escapeChar c, x < 128 := by
  intro x hx
  unfold escapeChar at hx
  split_ifs at hx with h1 h2 h3 h4 h5 h6 h7 h8 h9 h10
  · simp only [List.mem_cons, List.not_mem_nil, or_false] at hx; omega
  · simp only [List.mem_cons, List.not_mem_nil, or_false] at hx; omega
  · simp only [List.mem_cons, List.not_mem_nil, or_false] at hx; omega
  · simp only [List.mem_cons, List.not_mem_nil, or_false] at hx; omega
  · simp only [List.mem_cons, List.not_mem_nil, or_false] at hx; omega
  · simp only [List.mem_cons, List.not_mem_nil, or_false] at hx; omega
  · simp only [List.mem_cons, List.not_mem_nil, or_false] at hx; omega
  · exact escU_ascii c x hx
  · simp only [List.mem_cons, List.not_mem_nil, or_false] at hx; omega
  · exact escU_ascii c x hx
  · rcases List.mem_append.mp hx with h | h
    · exact escU_ascii _ x h
    · exact escU_ascii _ x h

/-- Escaped strings are ASCII. -/
theorem escapeString_ascii (s : List Nat) : ∀ c ∈ escapeString s, c < 128 := by
  induction s with
  | nil => intro c hc; exact absurd hc (List.not_mem_nil c)
  | cons a as ih =>
    intro c hc
    rcases List.mem_append.mp hc with h | h
    · exact escapeChar_ascii a c h
    · exact ih c h

/-- Integer reprs are ASCII. -/
theorem intRepr_ascii (n : Int) : ∀ c ∈ intRepr n, c < 128 := by
  intro c hc
  unfold intRepr at hc
  split at hc
  · rcases List.mem_cons.mp hc with h | h
    · omega
    · have := natDigits_mem_digit _ c h; omega
  · have := natDigits_mem_digit _ c hc; omega

/-- JSON string literals are ASCII. -/
theorem encStr_ascii (s : List Nat) : ∀ c ∈ encStr s, c < 128 := by
  intro c hc
  rcases List.mem_cons.mp hc with h | hc
  · omega
  rcases List.mem_append.mp hc with h | h
  · exact escapeString_ascii s c h
  · simp only [List.mem_singleton] at h; omega

/-- `json.dumps` output is pure ASCII (`ensure_ascii=True` default); by
strong induction on the fuel measure. -/
theorem dumps_ascii_aux : ∀ N : Nat,
    (∀ v, sizeJson v ≤ N → ∀ c ∈ dumpsJson v, c < 128) ∧
    (∀ vs, sizeElems vs ≤ N → ∀ c ∈ dumpsElemsTail vs, c < 128) ∧
    (∀ ms, sizeMembers ms ≤ N → ∀ c ∈ dumpsMembersTail ms, c < 128) := by
  intro N
  induction N using Nat.strong_induction_on with
  | _ N ih =>
    refine ⟨?_, ?_, ?_⟩
    · intro v hN c hc
      cases v with
      | null => have h : c ∈ [110, 117, 108, 108] := hc; simp at h; omega
      | bool b =>
        cases b with
        | true => have h : c ∈ [116, 114, 117, 101] := hc; simp at h; omega
        | false => have h : c ∈ [102, 97, 108, 115, 101] := hc; simp at h; omega
      | int n => exact intRepr_ascii n c hc
      | str s => exact encStr_ascii s c hc
      | arr es =>
        cases es with
        | nil => have h : c ∈ [91, 93] := hc; simp at h; omega
        | cons v vs =>
          have hN' : 1 + (1 + sizeJson v + sizeElems vs) ≤ N := hN
          have hv := sizeJson_pos v
          obtain ⟨ihV, ihE, ihM⟩ := ih (N - 1) (by omega)
          have h : c ∈ 91 :: ((dumpsJson v ++ dumpsElemsTail vs) ++ [93]) := hc
          rcases List.mem_cons.mp h with h | h
          · omega
          rcases List.mem_append.mp h with h | h
          · rcases List.mem_append.mp h with h | h
            · exact ihV v (by omega) c h
            · exact ihE vs (by omega) c h
          · simp only [List.mem_singleton] at h; omega
      | obj ms =>
        cases ms with
        | nil => have h : c ∈ [123, 125] := hc; simp at h; omega
        | cons k v tl =>
          have hN' : 1 + (1 + sizeJson v + sizeMembers tl) ≤ N := hN
          have hv := sizeJson_pos v
          obtain ⟨ihV, ihE, ihM⟩ := ih (N - 1) (by omega)
          have h : c ∈ 123 :: (((encStr k ++ (58 :: 32 :: dumpsJson v)) ++
            dumpsMembersTail tl) ++ [125]) := hc
          rcases List.mem_cons.mp h with h | h
          · omega
          rcases List.mem_append.mp h with h | h
          · rcases List.mem_append.mp h with h | h
            · rcases List.mem_append.mp h with h | h
              · exact encStr_ascii k c h
              · rcases List.mem_cons.mp h with h | h
                · omega
                rcases List.mem_cons.mp h with h | h
                · omega
                · exact ihV v (by omega) c h
            · exact ihM tl (by omega) c h
          · simp only [List.mem_singleton] at h; omega
    · intro vs hN c hc
      cases vs with
      | nil => exact absurd hc (List.not_mem_nil c)
      | cons v vs =>
        have hN' : 1 + sizeJson v + sizeElems vs ≤ N := hN
        have hv := sizeJson_pos v
        obtain ⟨ihV, ihE, ihM⟩ := ih (N - 1) (by omega)
        have h : c ∈ 44 :: 32 :: (dumpsJson v ++ dumpsElemsTail vs) := hc
        rcases List.mem_cons.mp h with h | h
        · omega
        rcases List.mem_cons.mp h with h | h
        · omega
        rcases List.mem_append.mp h with h | h
        · exact ihV v (by omega) c h
        · exact ihE vs (by omega) c h
    · intro ms hN c hc
      cases ms with
      | nil => exact absurd hc (List.not_mem_nil c)
      | cons k v tl =>
        have hN' : 1 + sizeJson v + sizeMembers tl ≤ N := hN
        have hv := sizeJson_pos v
        obtain ⟨ihV, ihE, ihM⟩ := ih (N - 1) (by omega)
        have h : c ∈ 44 :: 32 :: ((encStr k ++ (58 :: 32 :: dumpsJson v)) ++
          dumpsMembersTail tl) := hc
        rcases List.mem_cons.mp h with h | h
        · omega
        rcases List.mem_cons.mp h with h | h
        · omega
        rcases List.mem_append.mp h with h | h
        · rcases List.mem_append.mp h with h | h
          · exact encStr_ascii k c h
          · rcases List.mem_cons.mp h with h | h
            · omega
            rcases List.mem_cons.mp h with h | h
            · omega
            · exact ihV v (by omega) c h
        · exact ihM tl (by omega) c h

/-- `json.dumps` output is pure ASCII. -/
theorem dumpsJson_ascii (v : Json) : ∀ c ∈ dumpsJson v, c < 128 :=
  (dumps_ascii_aux (sizeJson v)).1 v le_rfl

/-- One-step unfolding of the fueled segment scanner. -/
theorem readSegmentEntriesF_succ (fuel : Nat) (bytes : List Nat) :
    readSegmentEntriesF (fuel + 1) bytes =
      (if bytes = [] then .ok []
      else if bytes.length < 4 then .error .structError
      else if ((bytes.drop 4).take (readU32LE (bytes.take 4))).length ≠ readU32LE (bytes.take 4)
        then .ok []
      else if (bytes.drop 4).length - readU32LE (bytes.take 4) < 4 then .ok []
      else if readU32LE (((bytes.drop 4).drop (readU32LE (bytes.take 4))).take 4) ≠
          crc32 ((bytes.drop 4).take (readU32LE (bytes.take 4))) then
        readSegmentEntriesF fuel (((bytes.drop 4).drop (readU32LE (bytes.take 4))).drop 4)
      else
        match utf8Decode ((bytes.drop 4).take (readU32LE (bytes.take 4))) with
        | none => .error .unicodeError
        | some s =>
          match pyJsonLoads s with
          | none => readSegmentEntriesF fuel (((bytes.drop 4).drop (readU32LE (bytes.take 4))).drop 4)
          | some j =>
            match readSegmentEntriesF fuel (((bytes.drop 4).drop (readU32LE (bytes.take 4))).drop 4) with
            | .error e => .error e
            | .ok js => .ok (j :: js)) := rfl

/-- The scanner's value does not depend on the fuel once the fuel
exceeds the input length. -/
theorem readSegmentEntriesF_congr : ∀ f1 f2 bytes, bytes.length < f1 → bytes.length < f2 →
    readSegmentEntriesF f1 bytes = readSegmentEntriesF f2 bytes := by
  intro f1
  induction f1 using Nat.strong_induction_on with
  | _ f1 ih =>
    intro f2 bytes h1 h2
    obtain ⟨a, rfl⟩ : ∃ a, f1 = a + 1 := ⟨f1 - 1, by omega⟩
    obtain ⟨b, rfl⟩ : ∃ b, f2 = b + 1 := ⟨f2 - 1, by omega⟩
    rw [readSegmentEntriesF_succ a bytes, readSegmentEntriesF_succ b bytes]
    by_cases hE : bytes = []
    · simp only [if_pos hE]
    simp only [if_neg hE]
    by_cases hL : bytes.length < 4
    · simp only [if_pos hL]
    simp only [if_neg hL]
    by_cases hD : ((bytes.drop 4).take (readU32LE (bytes.take 4))).length ≠ readU32LE (bytes.take 4)
    · simp only [if_pos hD]
    simp only [if_neg hD]
    by_cases hC : (bytes.drop 4).length - readU32LE (bytes.take 4) < 4
    · simp only [if_pos hC]
    simp only [if_neg hC]
    have hDeq : ((bytes.drop 4).take (readU32LE (bytes.take 4))).length =
        readU32LE (bytes.take 4) := not_ne_iff.mp hD
    simp only [List.length_take, List.length_drop] at hDeq
    have h3a : ((((bytes.drop 4)).drop (readU32LE (bytes.take 4))).drop 4).length < a := by
      simp only [List.length_drop]
      omega
    have h3b : ((((bytes.drop 4)).drop (readU32LE (bytes.take 4))).drop 4).length < b := by
      simp only [List.length_drop]
      omega
    have hrec := ih a (by omega) b _ h3a h3b
    rw [hrec]

/-- Scanning a well-formed length prefix followed by payload and a
4-byte checksum field: the checksum comparison decides between skipping
the frame and decoding it. -/
theorem readSegmentEntries_cons_frame (b0 b1 b2 b3 : Nat) (p q tail : List Nat)
    (hq : q.length = 4) (hn : readU32LE [b0, b1, b2, b3] = p.length) :
    readSegmentEntries (b0 :: b1 :: b2 :: b3 :: (p ++ (q ++ tail))) =
      if readU32LE q ≠ crc32 p then readSegmentEntries tail
      else
        match utf8Decode p with
        | none => .error .unicodeError
        | some s =>
          match pyJsonLoads s with
          | none => readSegmentEntries tail
          | some j =>
            match readSegmentEntries tail with
            | .error e => .error e
            | .ok js => .ok (j :: js) := by
  unfold readSegmentEntries
  rw [readSegmentEntriesF_succ]
  rw [if_neg (List.cons_ne_nil _ _)]
  have hL : ¬ ((b0 :: b1 :: b2 :: b3 :: (p ++ (q ++ tail))).length < 4) := by
    simp only [List.length_cons]; omega
  rw [if_neg hL]
  have htake : (b0 :: b1 :: b2 :: b3 :: (p ++ (q ++ tail))).take 4 = [b0, b1, b2, b3] := rfl
  have hdrop : (b0 :: b1 :: b2 :: b3 :: (p ++ (q ++ tail))).drop 4 = p ++ (q ++ tail) := rfl
  rw [htake, hdrop, hn]
  rw [List.take_left p (q ++ tail), List.drop_left p (q ++ tail)]
  rw [if_neg (show ¬ (p.length ≠ p.length) from fun hh => hh rfl)]
  have hC : ¬ ((p ++ (q ++ tail)).length - p.length < 4) := by
    simp only [List.length_append, hq]; omega
  rw [if_neg hC]
  have htq : (q ++ tail).take 4 = q := by rw [← hq]; exact List.take_left q tail
  have hdq : (q ++ tail).drop 4 = tail := by rw [← hq]; exact List.drop_left q tail
  rw [htq, hdq]
  have hrec : readSegmentEntriesF (b0 :: b1 :: b2 :: b3 :: (p ++ (q ++ tail))).length tail =
      readSegmentEntries tail := by
    unfold readSegmentEntries
    exact readSegmentEntriesF_congr _ _ tail
      (by simp only [List.length_cons, List.length_append]; omega) (by omega)
  rw [hrec]
  rfl

/-- Scanning a frame whose stored checksum is the arbitrary 32-bit value
`c`. -/
theorem readSegmentEntries_rawframe (p tail : List Nat) (c : Nat)
    (hplen : p.length < 4294967296) (hc : c < 4294967296) :
    readSegmentEntries ((u32le p.length ++ p ++ u32le c) ++ tail) =
      if c ≠ crc32 p then readSegmentEntries tail
      else
        match utf8Decode p with
        | none => .error .unicodeError
        | some s =>
          match pyJsonLoads s with
          | none => readSegmentEntries tail
          | some j =>
            match readSegmentEntries tail with
            | .error e => .error e
            | .ok js => .ok (j :: js) := by
  have hshape : (u32le p.length ++ p ++ u32le c) ++ tail =
      p.length % 256 :: p.length / 256 % 256 :: p.length / 65536 % 256 ::
        p.length / 16777216 % 256 :: (p ++ (u32le c ++ tail)) := by
    simp only [u32le, List.cons_append, List.nil_append, List.append_assoc]
  rw [hshape, readSegmentEntries_cons_frame _ _ _ _ p (u32le c) tail rfl
    (readU32LE_u32le p.length hplen), readU32LE_u32le c hc]

/-- Scanning a frame as written by `_write_entry_to_segment`: the CRC
check passes and the payload is decoded. -/
theorem readSegmentEntries_goodframe (p tail : List Nat)
    (hplen : p.length < 4294967296) (hb : ∀ b ∈ p, b < 256) :
    readSegmentEntries (writeEntryFrame p ++ tail) =
      match utf8Decode p with
      | none => .error .unicodeError
      | some s =>
        match pyJsonLoads s with
        | none => readSegmentEntries tail
        | some j =>
          match readSegmentEntries tail with
          | .error e => .error e
          | .ok js => .ok (j :: js) := by
  have h := readSegmentEntries_rawframe p tail (crc32 p) hplen (crc32_lt p hb)
  rw [if_neg (show ¬ (crc32 p ≠ crc32 p) from fun hh => hh rfl)] at h
  exact h

/-- Scanning one frame written for entry `e` yields `e` followed by the
scan of the rest. -/
theorem readSegmentEntries_entry (e : Json) (tail : List Nat)
    (hwf : wfJson e = true) (hlen : (dumpsJson e).length < 4294967296) :
    readSegmentEntries (writeEntryFrame (entryPayload e) ++ tail) =
      match readSegmentEntries tail with
      | .error err => .error err
      | .ok js => .ok (e :: js) := by
  have hasc := dumpsJson_ascii e
  have hpay : entryPayload e = dumpsJson e := utf8Encode_ascii _ hasc
  rw [hpay, readSegmentEntries_goodframe _ _ hlen (fun b hb => by have := hasc b hb; omega),
    utf8Decode_ascii _ hasc]
  show (match pyJsonLoads (dumpsJson e) with
    | none => readSegmentEntries tail
    | some j =>
      match readSegmentEntries tail with
      | .error err => .error err
      | .ok js => .ok (j :: js) : Except ScanError (List Json)) = _
  rw [pyJsonLoads_dumps e hwf]

/-- A single well-formed frame scans to exactly its entry. -/
theorem readSegmentEntries_single (e : Json)
    (hwf : wfJson e = true) (hlen : (dumpsJson e).length < 4294967296) :
    readSegmentEntries (writeEntryFrame (entryPayload e)) = .ok [e] := by
  have h := readSegmentEntries_entry e [] hwf hlen
  rw [List.append_nil] at h
  rw [h]
  rfl

/-- A frame truncated anywhere after its 4-byte length prefix ends the
scan cleanly with no entries (tail-torn write). -/
theorem readSegmentEntries_short (n : Nat) (d : List Nat)
    (hn : n < 4294967296) (hd : d.length < n + 4) :
    readSegmentEntries (u32le n ++ d) = .ok [] := by
  have hshape : u32le n ++ d =
      n % 256 :: n / 256 % 256 :: n / 65536 % 256 :: n / 16777216 % 256 :: d := by
    simp only [u32le, List.cons_append, List.nil_append]
  rw [hshape]
  unfold readSegmentEntries
  rw [readSegmentEntriesF_succ]
  rw [if_neg (List.cons_ne_nil _ _)]
  have hL : ¬ ((n % 256 :: n / 256 % 256 :: n / 65536 % 256 :: n / 16777216 % 256 :: d).length
      < 4) := by
    simp only [List.length_cons]; omega
  rw [if_neg hL]
  have htake : (n % 256 :: n / 256 % 256 :: n / 65536 % 256 :: n / 16777216 % 256 :: d).take 4 =
      u32le n := rfl
  have hdrop : (n % 256 :: n / 256 % 256 :: n / 65536 % 256 :: n / 16777216 % 256 :: d).drop 4 =
      d := rfl
  rw [htake, hdrop, readU32LE_u32le n hn]
  by_cases hcase : d.length < n
  · rw [if_pos (show (d.take n).length ≠ n by simp only [List.length_take]; omega)]
  · rw [if_neg (show ¬ ((d.take n).length ≠ n) by simp only [List.length_take]; omega)]
    rw [if_pos (show d.length - n < 4 by omega)]

theorem escapeString_replicate_x (n : Nat) :
    escapeString (List.replicate n 120) = List.replicate n 120 := by
  induction n with
  | zero => rfl
  | succ n ih =>
    rw [List.replicate_succ]
    show escapeChar 120 ++ escapeString (List.replicate n 120) = _
    rw [ih]
    rfl

theorem length_dumpsCompact_obj (k : List Nat) (v : Json) (ms : JsonMembers) :
    (dumpsCompactJson (Json.obj (JsonMembers.cons k v ms))).length =
      (encStr k).length + (dumpsCompactJson v).length +
        (dumpsCompactMembersTail ms).length + 3 := by
  show (123 :: (((encStr k ++ (58 :: dumpsCompactJson v)) ++ dumpsCompactMembersTail ms) ++
    [125])).length = _
  simp only [List.length_cons, List.length_append, List.length_nil]
  omega

theorem length_dumpsCompact_memtail (k : List Nat) (v : Json) (ms : JsonMembers) :
    (dumpsCompactMembersTail (JsonMembers.cons k v ms)).length =
      (encStr k).length + (dumpsCompactJson v).length +
        (dumpsCompactMembersTail ms).length + 2 := by
  show (44 :: ((encStr k ++ (58 :: dumpsCompactJson v)) ++ dumpsCompactMembersTail ms)).length = _
  simp only [List.length_cons, List.length_append, List.length_nil]
  omega

theorem length_dumpsCompact_str (t : List Nat) :
    (dumpsCompactJson (Json.str t)).length = (escapeString t).length + 2 := by
  show (34 :: (escapeString t ++ [34])).length = _
  simp only [List.length_cons, List.length_append, List.length_nil, List.length_singleton]

theorem length_encStr (t : List Nat) :
    (encStr t).length = (escapeString t).length + 2 := by
  show (34 :: (escapeString t ++ [34])).length = _
  simp only [List.length_cons, List.length_append, List.length_nil, List.length_singleton]

theorem oversizedEntry_size (s : List Nat) :
    (dumpsCompactJson (entryToJson (LogEntry.mk (strCodes "2025-01-01T00:00:00Z")
      LogLevel.INFO [109] [115] [112] none none none
      (some (Json.obj (JsonMembers.cons [97] (Json.str s) JsonMembers.nil)))))).length =
      154 + (escapeString s).length := by
  have hE : entryToJson (LogEntry.mk (strCodes "2025-01-01T00:00:00Z")
      LogLevel.INFO [109] [115] [112] none none none
      (some (Json.obj (JsonMembers.cons [97] (Json.str s) JsonMembers.nil)))) =
    Json.obj (JsonMembers.cons [116, 105, 109, 101, 115, 116, 97, 109, 112]
      (Json.str [50, 48, 50, 53, 45, 48, 49, 45, 48, 49, 84, 48, 48, 58, 48, 48, 58, 48, 48, 90])
      (JsonMembers.cons [108, 101, 118, 101, 108] (Json.str [73, 78, 70, 79])
        (JsonMembers.cons [109, 101, 115, 115, 97, 103, 101] (Json.str [109])
          (JsonMembers.cons [115, 101, 114, 118, 105, 99, 101] (Json.str [115])
            (JsonMembers.cons [101, 110, 118] (Json.str [112])
              (JsonMembers.cons [108, 97, 98, 101, 108, 115] Json.null
                (JsonMembers.cons [116, 114, 97, 99, 101, 95, 105, 100] Json.null
                  (JsonMembers.cons [115, 112, 97, 110, 95, 105, 100] Json.null
                    (JsonMembers.cons [109, 101, 116, 97, 100, 97, 116, 97]
                      (Json.obj (JsonMembers.cons [97] (Json.str s) JsonMembers.nil))
                      JsonMembers.nil))))))))) := rfl
  rw [hE]
  simp only [length_dumpsCompact_obj, length_dumpsCompact_memtail, length_dumpsCompact_str,
    length_encStr]
  have e1 : (escapeString [116, 105, 109, 101, 115, 116, 97, 109, 112]).length = 9 := rfl
  have e2 : (escapeString [50, 48, 50, 53, 45, 48, 49, 45, 48, 49, 84, 48, 48, 58, 48, 48, 58,
    48, 48, 90]).length = 20 := rfl
  have e3 : (escapeString [108, 101, 118, 101, 108]).length = 5 := rfl
  have e4 : (escapeString [73, 78, 70, 79]).length = 4 := rfl
  have e5 : (escapeString [109, 101, 115, 115, 97, 103, 101]).length = 7 := rfl
  have e6 : (escapeString [109]).length = 1 := rfl
  have e7 : (escapeString [115, 101, 114, 118, 105, 99, 101]).length = 7 := rfl
  have e8 : (escapeString [115]).length = 1 := rfl
  have e9 : (escapeString [101, 110, 118]).length = 3 := rfl
  have e10 : (escapeString [112]).length = 1 := rfl
  have e11 : (escapeString [108, 97, 98, 101, 108, 115]).length = 6 := rfl
  have e12 : (escapeString [116, 114, 97, 99, 101, 95, 105, 100]).length = 8 := rfl
  have e13 : (escapeString [115, 112, 97, 110, 95, 105, 100]).length = 7 := rfl
  have e14 : (escapeString [109, 101, 116, 97, 100, 97, 116, 97]).length = 8 := rfl
  have e15 : (escapeString [97]).length = 1 := rfl
  have e16 : (dumpsCompactJson Json.null).length = 4 := rfl
  have e17 : (dumpsCompactMembersTail JsonMembers.nil).length = 0 := rfl
  rw [e1, e2, e3, e4, e5, e6, e7, e8, e9, e10, e11, e12, e13, e14, e15, e16, e17]
  omega

/-! ## Claim theorems -/

/-- Claim C6: `consume(n)` refills by `floor(elapsed * refill_rate)`
capped at `capacity`, sets `last_refill := now`, returns true iff the
refilled count is at least `n`, and decreases the count by exactly `n`
on success and not at all on failure.  (Hypotheses: `n ≥ 0`, a
non-negative refill rate — buckets are built from config `rps > 0` —
and a non-decreasing clock, under which Python `int()` truncation
coincides with `floor`.) -/
theorem C6_consume_refill_and_decrement (b : TokenBucket) (now : ℚ) (n : Int)
    (hn : 0 ≤ n) (hrate : 0 ≤ b.refill_rate) (hclock : b.last_refill ≤ now) :
    ((b.consume now n).2.last_refill = now) ∧
    ((b.consume now n).1 = true ↔
      n ≤ min b.capacity (b.tokens + ⌊(now - b.last_refill) * (b.refill_rate : ℚ)⌋)) ∧
    ((b.consume now n).1 = true →
      (b.consume now n).2.tokens =
        min b.capacity (b.tokens + ⌊(now - b.last_refill) * (b.refill_rate : ℚ)⌋) - n) ∧
    ((b.consume now n).1 = false →
      (b.consume now n).2.tokens =
        min b.capacity (b.tokens + ⌊(now - b.last_refill) * (b.refill_rate : ℚ)⌋)) := by
  have hq : (0 : ℚ) ≤ (now - b.last_refill) * (b.refill_rate : ℚ) :=
    mul_nonneg (by linarith) (by exact_mod_cast hrate)
  simp only [TokenBucket.consume, pyTruncInt, if_pos hq]
  split
  · next h =>
    refine ⟨rfl, iff_of_true rfl h, fun _ => rfl, ?_⟩
    intro hfalse
    exact absurd hfalse (by simp)
  · next h =>
    refine ⟨rfl, iff_of_false (by simp) h, ?_, fun _ => rfl⟩
    intro htrue
    exact absurd htrue (by simp)

/-- Witness for C6 at a concrete input: bucket with capacity 10, rate 5,
3 tokens, last refill at time 0; consuming 2 at time 2. -/
theorem C6_consume_refill_and_decrement_witness :
    (0 ≤ (2 : Int)) ∧ (0 ≤ (5 : Int)) ∧ ((0 : ℚ) ≤ 2) ∧
    ((((TokenBucket.mk 10 5 3 0).consume 2 2).2.last_refill = 2) ∧
     ((((TokenBucket.mk 10 5 3 0).consume 2 2).1 = true) ↔
       (2 : Int) ≤ min (10 : Int) (3 + ⌊((2 : ℚ) - 0) * ((5 : Int) : ℚ)⌋)) ∧
     ((((TokenBucket.mk 10 5 3 0).consume 2 2).1 = true) →
       (((TokenBucket.mk 10 5 3 0).consume 2 2).2.tokens =
         min (10 : Int) (3 + ⌊((2 : ℚ) - 0) * ((5 : Int) : ℚ)⌋) - 2)) ∧
     ((((TokenBucket.mk 10 5 3 0).consume 2 2).1 = false) →
       (((TokenBucket.mk 10 5 3 0).consume 2 2).2.tokens =
         min (10 : Int) (3 + ⌊((2 : ℚ) - 0) * ((5 : Int) : ℚ)⌋)))) :=
  ⟨by norm_num, by norm_num, by norm_num,
    C6_consume_refill_and_decrement (TokenBucket.mk 10 5 3 0) 2 2
      (by norm_num) (by norm_num) (by norm_num)⟩

/-- Counterexample to claim C8 as stated: under `keep_prefix: 5`, a
value of length exactly 5 is masked to `"****"` by the code, while the
claim (`if len < N then "****" else first N ++ "****"`) demands
`"abcde****"`. -/
theorem C8_keep_prefix_counterexample :
    applyPartialMasking "abcde" { keepPre := some 5 } = "****" ∧
    claimedKeepPrefixMask "abcde" 5 = "abcde****" ∧
    applyPartialMasking "abcde" { keepPre := some 5 } ≠ claimedKeepPrefixMask "abcde" 5 := by
  decide

/-- Claim C8, amended: under a `keep_prefix: N` rule the masked result
is the first `N` characters followed by `****` when the stringified
value is strictly longer than `N`, and exactly `****` when its length is
at most `N` (in particular when it is empty). -/
theorem C8_keep_prefix_amended (v : String) (n : Nat) :
    applyPartialMasking v { keepPre := some n } =
      if v.length ≤ n then "****" else String.mk (v.toList.take n) ++ "****" := by
  by_cases hv : v = ""
  · subst hv; simp [applyPartialMasking]
  · simp [applyPartialMasking, hv]

/-- Claim C2 refuted (code bug): on a tenant directory with no segment
files, `append` raises `FileNotFoundError` — `_should_rotate_segment`
calls `stat()` on the not-yet-created `segment_001.wal` — instead of
creating the first segment. -/
theorem C2_first_append_raises (s : WALSettings) (now : ℚ) (entries : List Json) :
    walAppend s now [] entries = .error .fileNotFound := rfl

/-- Claim C1 refuted (code bug): starting from a directory holding only
`segment_001.wal` and rotating twice (the second rotation happening
before the forwarder has consumed the ready files), the second rotation
computes the next number as `len(*.wal files) + 1 = 2` and creates
`segment_002.wal` while `segment_002.ready` exists, so the sequence
numbers of all segment files are `[1, 2, 2]` — duplicated, and the new
segment is not numbered one above the highest existing number 2. -/
theorem C1_rotation_duplicates_sequence_number :
    (rotateSegment {} 100 [{ num := 1, ext := SegExt.wal, size := 70000, ctime := 0, mtime := 0 }]).bind
        (rotateSegment {} 200) =
      .ok [{ num := 1, ext := SegExt.ready, size := 70000, ctime := 0, mtime := 0 },
           { num := 2, ext := SegExt.ready, size := 0, ctime := 100, mtime := 100 },
           { num := 2, ext := SegExt.wal, size := 0, ctime := 200, mtime := 200 }] ∧
    segNums [{ num := 1, ext := SegExt.ready, size := 70000, ctime := 0, mtime := 0 },
             { num := 2, ext := SegExt.ready, size := 0, ctime := 100, mtime := 100 },
             { num := 2, ext := SegExt.wal, size := 0, ctime := 200, mtime := 200 }] = [1, 2, 2] ∧
    ¬ ([1, 2, 2] : List Nat).Nodup :=
  ⟨rfl, rfl, by decide⟩

/-- Claim C4 refuted (code bug): `get_ready_segments(token)` scans
`wal_root / token` with the raw token, while `append(token, ...)` writes
under the sanitized directory `wal_root / sanitize(token)`.  For the
token `"t"` whose sanitized directory holds one ready segment, the
restricted snapshot comes back empty even though scanning the tenant's
actual directory finds the segment. -/
theorem C4_ready_segments_scan_wrong_directory :
    appendDirName (strCodes "t") ≠ strCodes "t" ∧
    getReadySegments
        [(appendDirName (strCodes "t"),
          [{ num := 1, ext := SegExt.ready, size := 10, ctime := 0, mtime := 0 }])]
        (some (strCodes "t")) = [] ∧
    scanForReadySegments (appendDirName (strCodes "t"))
        [{ num := 1, ext := SegExt.ready, size := 10, ctime := 0, mtime := 0 }] =
      [{ dirName := appendDirName (strCodes "t"), num := 1, size_bytes := 10,
         creation_time := 0, last_write_time := 0, entry_count := 0, is_ready := true }] := by
  refine ⟨by decide, by decide, rfl⟩

/-- Claim C5: the sanitized tenant directory name is the token filtered
to `[A-Za-z0-9_-]`, truncated to 20 characters, then `_` and the first 8
hex characters of the SHA-256 of the token's UTF-8 bytes; the name never
contains `/`, `\` or `.`, so the tenant directory is a direct child of
`wal_root`. -/
theorem C5_sanitize_token_structure (token : List Nat) :
    sanitizeToken token =
      (token.filter isTokenSafeChar).take 20 ++
        (95 :: (sha256HexDigest (utf8Encode token)).take 8) ∧
    ∀ c ∈ sanitizeToken token, c ≠ 47 ∧ c ≠ 92 ∧ c ≠ 46 := by
  refine ⟨rfl, ?_⟩
  intro c hc
  unfold sanitizeToken at hc
  rcases List.mem_append.mp hc with h | h
  · have hp : isTokenSafeChar c := (List.mem_filter.mp (List.take_subset _ _ h)).2
    simp only [isTokenSafeChar, decide_eq_true_eq] at hp
    omega
  · rcases List.mem_cons.mp h with rfl | h2
    · omega
    · have := mem_bytesToHex c _ (List.take_subset _ _ h2)
      omega

/-- C3: writing entries as length/payload/crc frames and scanning the
segment from offset 0 returns exactly the same entries in order (the
CRC check passes on every record). -/
theorem C3_frame_round_trip (entries : List Json)
    (hwf : ∀ e ∈ entries, wfJson e = true)
    (hlen : ∀ e ∈ entries, (dumpsJson e).length < 4294967296) :
    readSegmentEntries (writeEntriesBytes entries) = .ok entries := by
  induction entries with
  | nil => rfl
  | cons e es ih =>
    show readSegmentEntries (writeEntryFrame (entryPayload e) ++ writeEntriesBytes es) = _
    rw [readSegmentEntries_entry e _ (hwf e (List.mem_cons_self e es))
        (hlen e (List.mem_cons_self e es)),
      ih (fun x hx => hwf x (List.mem_cons_of_mem e hx))
        (fun x hx => hlen x (List.mem_cons_of_mem e hx))]

theorem C3_frame_round_trip_witness :
    (∀ e ∈ [Json.obj (JsonMembers.cons [109] Json.null JsonMembers.nil), Json.str [104, 105]],
      wfJson e = true) ∧
    (∀ e ∈ [Json.obj (JsonMembers.cons [109] Json.null JsonMembers.nil), Json.str [104, 105]],
      (dumpsJson e).length < 4294967296) ∧
    readSegmentEntries (writeEntriesBytes
        [Json.obj (JsonMembers.cons [109] Json.null JsonMembers.nil), Json.str [104, 105]]) =
      .ok [Json.obj (JsonMembers.cons [109] Json.null JsonMembers.nil), Json.str [104, 105]] :=
  ⟨by decide, by decide, C3_frame_round_trip _ (by decide) (by decide)⟩

/-- C7 counterexample: a 2-byte (short) read of the 4-byte length
prefix does not stop the scan cleanly; `struct.unpack` raises
`struct.error` and the scan aborts with an error. -/
theorem C7_short_length_read_counterexample :
    readSegmentEntries [0, 0] = .error .structError := rfl

/-- C7 amended: a frame whose stored checksum differs from
`crc32(payload)` is skipped and scanning continues (records before and
after it are returned); a short payload or checksum read stops the scan
cleanly with the prior records; an empty length read ends the scan; but
a 1-3 byte length read raises `struct.error`. -/
theorem C7_scan_error_handling_amended (e1 e2 : Json) (p d l : List Nat) (c n : Nat)
    (hwf1 : wfJson e1 = true) (hlen1 : (dumpsJson e1).length < 4294967296)
    (hwf2 : wfJson e2 = true) (hlen2 : (dumpsJson e2).length < 4294967296)
    (hp : ∀ b ∈ p, b < 256) (hplen : p.length < 4294967296)
    (hc : c < 4294967296) (hbad : c ≠ crc32 p)
    (hn : n < 4294967296) (hd : d.length < n + 4)
    (hl0 : 0 < l.length) (hl4 : l.length < 4) :
    readSegmentEntries (writeEntryFrame (entryPayload e1) ++
        ((u32le p.length ++ p ++ u32le c) ++ writeEntryFrame (entryPayload e2))) =
      .ok [e1, e2] ∧
    readSegmentEntries (writeEntryFrame (entryPayload e1) ++ (u32le n ++ d)) = .ok [e1] ∧
    readSegmentEntries [] = .ok [] ∧
    readSegmentEntries l = .error .structError := by
  refine ⟨?_, ?_, ?_, ?_⟩
  · rw [readSegmentEntries_entry e1 _ hwf1 hlen1,
      readSegmentEntries_rawframe p _ c hplen hc, if_pos hbad,
      readSegmentEntries_single e2 hwf2 hlen2]
  · rw [readSegmentEntries_entry e1 _ hwf1 hlen1, readSegmentEntries_short n d hn hd]
  · rfl
  · obtain ⟨b, bs, rfl⟩ : ∃ b bs, l = b :: bs := by
      cases l with
      | nil => simp at hl0
      | cons b bs => exact ⟨b, bs, rfl⟩
    unfold readSegmentEntries
    rw [readSegmentEntriesF_succ, if_neg (List.cons_ne_nil _ _), if_pos hl4]

theorem C7_scan_error_handling_amended_witness :
    readSegmentEntries (writeEntryFrame (entryPayload Json.null) ++
        ((u32le ([97] : List Nat).length ++ [97] ++ u32le 0) ++
          writeEntryFrame (entryPayload (Json.bool true)))) =
      .ok [Json.null, Json.bool true] ∧
    readSegmentEntries (writeEntryFrame (entryPayload Json.null) ++
        (u32le 5 ++ [1, 2, 3])) = .ok [Json.null] ∧
    readSegmentEntries [] = .ok [] ∧
    readSegmentEntries [7, 7] = .error .structError :=
  C7_scan_error_handling_amended Json.null (Json.bool true) [97] [1, 2, 3] [7, 7] 0 5
    (by decide) (by decide) (by decide) (by decide) (by decide) (by decide) (by decide)
    (by decide) (by decide) (by decide) (by decide) (by decide)

/-- C10 counterexample: a record whose CRC32 matches but whose payload
is not valid UTF-8 makes the scan raise `UnicodeDecodeError` (the
`except json.JSONDecodeError` handler does not catch it), rather than
being skipped. -/
theorem C10_undecodable_payload_counterexample :
    readSegmentEntries (writeEntryFrame [255]) = .error .unicodeError := rfl

/-- C10 amended: a CRC-valid record whose payload decodes as UTF-8 but
is not valid JSON is skipped and the scan continues with later records;
but a CRC-valid record whose payload is not valid UTF-8 raises,
aborting the scan of a readable file. -/
theorem C10_payload_decode_amended (e : Json) (p q s : List Nat)
    (hwf : wfJson e = true) (hlen : (dumpsJson e).length < 4294967296)
    (hq : ∀ b ∈ q, b < 256) (hqlen : q.length < 4294967296)
    (hqdec : utf8Decode q = some s) (hqjson : pyJsonLoads s = none)
    (hp : ∀ b ∈ p, b < 256) (hplen : p.length < 4294967296)
    (hpdec : utf8Decode p = none) :
    readSegmentEntries (writeEntryFrame q ++ writeEntryFrame (entryPayload e)) = .ok [e] ∧
    readSegmentEntries (writeEntryFrame p ++ writeEntryFrame (entryPayload e)) =
      .error .unicodeError := by
  constructor
  · rw [readSegmentEntries_goodframe q _ hqlen hq, hqdec]
    show (match pyJsonLoads s with
      | none => readSegmentEntries (writeEntryFrame (entryPayload e))
      | some j =>
        match readSegmentEntries (writeEntryFrame (entryPayload e)) with
        | .error err => .error err
        | .ok js => .ok (j :: js) : Except ScanError (List Json)) = _
    rw [hqjson, readSegmentEntries_single e hwf hlen]
  · rw [readSegmentEntries_goodframe p _ hplen hp, hpdec]

theorem C10_payload_decode_amended_witness :
    readSegmentEntries (writeEntryFrame [120] ++ writeEntryFrame (entryPayload Json.null)) =
      .ok [Json.null] ∧
    readSegmentEntries (writeEntryFrame [255] ++ writeEntryFrame (entryPayload Json.null)) =
      .error .unicodeError :=
  C10_payload_decode_amended Json.null [255] [120] [120]
    (by decide) (by decide) (by decide) (by decide) (by decide) (by decide)
    (by decide) (by decide) (by decide)

/-- C9: an entry whose serialized form is 40154 bytes (over 32 KiB)
passes entry validation and batch validation (the batch stays under
1 MiB): no entry_too_large rejection exists in the models. -/
theorem C9_entry_size_limit_unenforced :
    validLogEntry oversizedEntry = true ∧ validLogBatch [oversizedEntry] = true ∧
    32768 < entrySerializedSize oversizedEntry := by
  have hsize : entrySerializedSize oversizedEntry = 40154 := by
    show (dumpsCompactJson (entryToJson (LogEntry.mk (strCodes "2025-01-01T00:00:00Z")
      LogLevel.INFO [109] [115] [112] none none none
      (some (Json.obj (JsonMembers.cons [97] (Json.str (List.replicate 40000 120))
        JsonMembers.nil)))))).length = 40154
    rw [oversizedEntry_size (List.replicate 40000 120), escapeString_replicate_x,
      List.length_replicate]
  refine ⟨rfl, ?_, ?_⟩
  · show (decide (1 ≤ ([oversizedEntry] : List LogEntry).length) &&
      decide (([oversizedEntry] : List LogEntry).length ≤ 500) &&
      decide ((([oversizedEntry] : List LogEntry).map entrySerializedSize).sum ≤ 1048576)) = true
    have hsum : (([oversizedEntry] : List LogEntry).map entrySerializedSize).sum = 40154 := by
      simp only [List.map_cons, List.map_nil, List.sum_cons, List.sum_nil, hsize]
      omega
    rw [hsum]
    rfl
  · rw [hsize]
    omega
